import Mathlib

/-!
Shallow embedding of the incremental-load (watermark/checkpoint) engine of the
`de-project-sprint-5` repository, together with proofs about the claims made by
its specification.

Modelling conventions, used throughout:

* `datetime` values are modelled as natural numbers (a point on a totally
  ordered time line); `datetime.min` is `0`.  Where sub-second precision
  matters (the settings serializer) a timestamp is refined into whole seconds
  plus microseconds.
* `str(ObjectId(...))` values are fixed-width lower-case hex strings; on such
  strings Python's lexicographic string comparison coincides with the numeric
  order of the encoded value, so object ids are modelled as natural numbers
  and `str(ObjectId('0' * 24))` is `0`.
* SQL `NUMERIC` money amounts and Python floats that the claims never do
  arithmetic on are modelled as integers (a fixed-point scaling).
* A SQL table is a list of row structures; `SELECT ... WHERE ... ORDER BY ...
  LIMIT ...` is `filter`, then a stable sort (`List.insertionSort`), then
  `take`.  A query parameterised row source (a join) is passed to the reader
  as the list of rows the join produces.
* `psycopg` transactional scopes (`PgConnect.connection`) are modelled by
  `pgScope`: the body either finishes and its final state is committed, or
  raises, in which case the connection rolls back and the committed state is
  unchanged.
-/

/-- Python truthiness of an optional integer column value: `None` and `0` are
falsy, every other integer is truthy.  This is what `all([...])` tests. -/
def truthyInt : Option Int → Bool
  | none => false
  | some n => n != 0

/-- Python truthiness of an optional string column value: `None` and the empty
string are falsy. -/
def truthyStr : Option String → Bool
  | none => false
  | some s => s != ""

/-- The gap-filter loop
`for idx, x in enumerate(xs): if not check(x): xs = xs[:idx]; break`:
keep scanning while `check` holds, and at the first failure discard that
element and everything after it. -/
def gapFilter {α : Type} (check : α → Bool) : List α → List α
  | [] => []
  | x :: xs => if check x then x :: gapFilter check xs else []

/-- Python's `max` over a non-empty list (first element plus the rest): fold
left, replacing the accumulator exactly when the next element is strictly
greater under `__lt__`. -/
def pyMax {α : Type} (ltb : α → α → Bool) (x : α) (xs : List α) : α :=
  xs.foldl (fun acc y => if ltb acc y then y else acc) x

/-- Python's `max` of a possibly empty list: `none` on the empty list.  The
settlement drain loop assigns `last_loaded_report = max(load_queue)` only for
non-empty pages, where this is `some` of the Python maximum. -/
def pyMaxOpt {α : Type} (ltb : α → α → Bool) : List α → Option α
  | [] => none
  | x :: xs => some (pyMax ltb x xs)

/-- Comparison-key extraction turned into the boolean `__lt__` of the record
classes: `self.key < other.key`. -/
def keyLtB {α κ : Type} [LinearOrder κ] (key : α → κ) : α → α → Bool :=
  fun a b => decide (key a < key b)

/-- Key-based non-strict comparison, the ordering the `ORDER BY` clauses sort
by. -/
def keyLe {α κ : Type} [LinearOrder κ] (key : α → κ) (a b : α) : Prop :=
  key a ≤ key b

instance {α κ : Type} [LinearOrder κ] (key : α → κ) : DecidableRel (keyLe key) :=
  fun a b => inferInstanceAs (Decidable (key a ≤ key b))

instance {α κ : Type} [LinearOrder κ] (key : α → κ) : IsTotal α (keyLe key) :=
  ⟨fun a b => le_total (key a) (key b)⟩

instance {α κ : Type} [LinearOrder κ] (key : α → κ) : IsTrans α (keyLe key) :=
  ⟨fun _ _ _ h h' => le_trans h h'⟩

/-- Transactional connection scope of `PgConnect.connection`:
`try: yield conn; conn.commit()` / `except: conn.rollback(); raise`.
Given the committed database state and a body that either returns the new
state or raises, produce the state that is actually committed afterwards plus
the re-raised error, if any. -/
def pgScope {σ ε : Type} (committed : σ) (body : σ → Except ε σ) : σ × Option ε :=
  match body committed with
  | .ok s => (s, none)
  | .error e => (committed, some e)

namespace EtlSettings

/-- A value inside the `workflow_settings` JSON blob: a rendered timestamp, a
rendered object id, or an integer. -/
inductive BlobVal where
  | tsv (n : Nat)
  | idv (n : Nat)
  | intv (z : Int)
deriving DecidableEq

/-- A row of `srv_wf_settings`: `{id, workflow_key, workflow_settings}` with
the settings blob as a key-value dictionary. -/
structure EtlSetting where
  id : Int
  workflow_key : String
  workflow_settings : List (String × BlobVal)
deriving DecidableEq

/-- The `EtlSettingsRepository.get_setting` query: the first row whose
`workflow_key` matches, or the fresh `EtlSetting(id=0, workflow_key=wf_key)`
(whose settings dict is empty) when none is stored. -/
def get_setting (table : List EtlSetting) (wf_key : String) : EtlSetting :=
  (table.find? (fun r => r.workflow_key == wf_key)).getD ⟨0, wf_key, []⟩

/-- Dictionary lookup of a timestamp-valued blob entry. -/
def lookupTs (b : List (String × BlobVal)) (k : String) : Option Nat :=
  match b.find? (fun p => p.1 == k) with
  | some (_, .tsv n) => some n
  | _ => none

/-- Dictionary lookup of an object-id-valued blob entry. -/
def lookupId (b : List (String × BlobVal)) (k : String) : Option Nat :=
  match b.find? (fun p => p.1 == k) with
  | some (_, .idv n) => some n
  | _ => none

/-- Dictionary lookup of an integer-valued blob entry. -/
def lookupInt (b : List (String × BlobVal)) (k : String) : Option Int :=
  match b.find? (fun p => p.1 == k) with
  | some (_, .intv z) => some z
  | _ => none

end EtlSettings

namespace DmOrders

/-- A record produced by `OrdersToDdsWorkflow.list_orders`' join query: order
data from staging plus the (possibly unresolved) foreign keys of the three
referenced dds dimensions. -/
structure OrderObj where
  object_id : Nat
  update_ts : Nat
  final_status : String
  user_fk : Option Int
  restaurant_fk : Option Int
  timestamp_fk : Option Int
deriving DecidableEq

/-- The comparison key of `OrderObj.__lt__`: the tuple
`(update_ts, object_id)` under lexicographic order. -/
def okey (o : OrderObj) : Lex (Nat × Nat) :=
  toLex (o.update_ts, o.object_id)

/-- Boolean `OrderObj.__lt__`. -/
def orderLtB : OrderObj → OrderObj → Bool := keyLtB okey

/-- The ordering of the query's `ORDER BY oo.update_ts, oo.object_id`. -/
abbrev ordersLe : OrderObj → OrderObj → Prop := keyLe okey

/-- The `OrderSettings` watermark model: `last_loaded_ts` (default
`datetime.min`, i.e. `0`) and `last_loaded_oid` (default the all-zero object
id, i.e. `0`). -/
structure OrderSettings where
  last_loaded_ts : Nat
  last_loaded_oid : Nat
deriving DecidableEq

/-- Defaults of `OrderSettings` when built from an empty settings dict. -/
def OrderSettings.defaults : OrderSettings := ⟨0, 0⟩

/-- `OrderSettings(**last_loaded_order.dict())`, populated through the field
aliases `update_ts` / `object_id`. -/
def OrderSettings.ofOrder (o : OrderObj) : OrderSettings :=
  ⟨o.update_ts, o.object_id⟩

/-- `OrderSettings(**blob)`: pydantic populates each field from the stored
blob by field name or alias, falling back to the declared default. -/
def OrderSettings.ofBlob (b : List (String × EtlSettings.BlobVal)) : OrderSettings :=
  ⟨((EtlSettings.lookupTs b "last_loaded_ts").orElse
      (fun _ => EtlSettings.lookupTs b "update_ts")).getD 0,
   ((EtlSettings.lookupId b "last_loaded_oid").orElse
      (fun _ => EtlSettings.lookupId b "object_id")).getD 0⟩

/-- The `WHERE` clause of the join query:
`update_ts > ts_threshold OR (update_ts = ts_threshold AND object_id > oid_threshold)`. -/
def ordersWhere (s : OrderSettings) (o : OrderObj) : Bool :=
  decide (s.last_loaded_ts < o.update_ts ∨
    (o.update_ts = s.last_loaded_ts ∧ s.last_loaded_oid < o.object_id))

/-- The SQL read of `list_orders` before the gap filter: `WHERE` filter over
the join's rows, `ORDER BY update_ts, object_id`, `LIMIT limit`. -/
def ordersRead (rows : List OrderObj) (s : OrderSettings) (limit : Nat) : List OrderObj :=
  (List.insertionSort ordersLe (rows.filter (ordersWhere s))).take limit

/-- The per-record test of the gap-filter loop:
`all([order.user_fk, order.restaurant_fk, order.timestamp_fk])`. -/
def orderFkCheck (o : OrderObj) : Bool :=
  truthyInt o.user_fk && truthyInt o.restaurant_fk && truthyInt o.timestamp_fk

/-- The gap-filter step of `list_orders`. -/
def filterOrders (batch : List OrderObj) : List OrderObj :=
  gapFilter orderFkCheck batch

/-- `OrdersToDdsWorkflow.list_orders`: SQL read, then the gap filter. -/
def list_orders (rows : List OrderObj) (s : OrderSettings) (limit : Nat) : List OrderObj :=
  filterOrders (ordersRead rows s limit)

/-- A row of `dds.dm_orders` as written by `insert_order`. -/
structure OrderRow where
  order_key : Nat
  order_status : String
  user_id : Option Int
  restaurant_id : Option Int
  timestamp_id : Option Int
deriving DecidableEq

/-- The row `insert_order` binds for an order. -/
def rowOf (o : OrderObj) : OrderRow :=
  ⟨o.object_id, o.final_status, o.user_fk, o.restaurant_fk, o.timestamp_fk⟩

/-- `insert_order`: `INSERT ... ON CONFLICT (order_key) DO UPDATE SET` all
payload columns — an upsert keyed by `order_key`. -/
def upsertOrder (t : List OrderRow) (o : OrderObj) : List OrderRow :=
  if t.any (fun r => r.order_key == o.object_id) then
    t.map (fun r => if r.order_key == o.object_id then rowOf o else r)
  else
    t ++ [rowOf o]

/-- Destination-side state touched by `OrdersLoader.run`: the `dds.dm_orders`
table and the parsed settings row of this pipeline's workflow key. -/
structure OrdersState where
  dm_orders : List OrderRow
  wfSettings : Option OrderSettings
deriving DecidableEq

/-- Settings at the start of a run: the stored row parsed into
`OrderSettings`, or the defaults when no row exists. -/
def settingsOf (st : OrdersState) : OrderSettings :=
  st.wfSettings.getD OrderSettings.defaults

/-- `OrdersLoader.BATCH_LIMIT`. -/
def BATCH_LIMIT : Nat := 5000

/-- The tail of `OrdersLoader.run` applied to a fetched batch: gap filter, the
early return on an empty queue, the upsert loop, then
`OrderSettings(**max(load_queue).dict())` saved as the new watermark. -/
def ordersApply (batch : List OrderObj) (st : OrdersState) : OrdersState :=
  match filterOrders batch with
  | [] => st
  | q :: qs =>
    ⟨(q :: qs).foldl upsertOrder st.dm_orders,
     some (OrderSettings.ofOrder (pyMax orderLtB q qs))⟩

/-- `OrdersLoader.run` over a modelled source: read settings, fetch the batch,
filter, write, save the watermark. -/
def ordersRun (rows : List OrderObj) (st : OrdersState) : OrdersState :=
  ordersApply (ordersRead rows (settingsOf st) BATCH_LIMIT) st

/-- One iteration of the write loop in the fallible model: perform the
destination `INSERT` (which may raise), then fold the row into the table. -/
def writeStep {ε : Type} (writeE : OrderObj → Except ε Unit)
    (acc : List OrderRow) (o : OrderObj) : Except ε (List OrderRow) := do
  _ ← writeE o
  pure (upsertOrder acc o)

/-- `OrdersLoader.run` with fallible read, write and checkpoint-save steps:
the body that executes inside the destination connection scope.  Any raised
error propagates out of the body. -/
def ordersRunE {ε : Type} (readE : OrderSettings → Except ε (List OrderObj))
    (writeE : OrderObj → Except ε Unit) (saveE : OrderSettings → Except ε Unit)
    (st : OrdersState) : Except ε OrdersState := do
  let batch ← readE (settingsOf st)
  match filterOrders batch with
  | [] => pure st
  | q :: qs => do
    let table ← (q :: qs).foldlM (writeStep writeE) st.dm_orders
    _ ← saveE (OrderSettings.ofOrder (pyMax orderLtB q qs))
    pure ⟨table, some (OrderSettings.ofOrder (pyMax orderLtB q qs))⟩

end DmOrders

namespace FctSales

/-- A record of `ProductSalesToDdsWorkflow.list_sales`' join query.  The two
foreign keys are `Optional[str]` in the model class. -/
structure ProductSaleObj where
  product_id : Nat
  price : Int
  quantity : Int
  bonus_payment : Int
  bonus_grant : Int
  event_ts : Nat
  order_fk : Option String
  product_fk : Option String
deriving DecidableEq

/-- The comparison key of `ProductSaleObj.__lt__`: `(event_ts, product_id)`. -/
def skey (s : ProductSaleObj) : Lex (Nat × Nat) :=
  toLex (s.event_ts, s.product_id)

/-- Boolean `ProductSaleObj.__lt__`. -/
def saleLtB : ProductSaleObj → ProductSaleObj → Bool := keyLtB skey

/-- The ordering of `ORDER BY be.event_ts, product.product_id`. -/
abbrev salesLe : ProductSaleObj → ProductSaleObj → Prop := keyLe skey

/-- The `ProductSaleSettings` watermark: defaults `datetime.min` and the
all-zero object id. -/
structure ProductSaleSettings where
  last_loaded_ts : Nat
  last_loaded_product_id : Nat
deriving DecidableEq

/-- Defaults of `ProductSaleSettings`. -/
def ProductSaleSettings.defaults : ProductSaleSettings := ⟨0, 0⟩

/-- `ProductSaleSettings(**max(load_queue).dict())` through the aliases
`event_ts` / `product_id`. -/
def ProductSaleSettings.ofSale (s : ProductSaleObj) : ProductSaleSettings :=
  ⟨s.event_ts, s.product_id⟩

/-- The `WHERE` clause:
`event_ts > ts_threshold OR (event_ts = ts_threshold AND product_id > oid_threshold)`. -/
def salesWhere (s : ProductSaleSettings) (ps : ProductSaleObj) : Bool :=
  decide (s.last_loaded_ts < ps.event_ts ∨
    (ps.event_ts = s.last_loaded_ts ∧ s.last_loaded_product_id < ps.product_id))

/-- The SQL read of `list_sales` before the gap filter. -/
def salesRead (rows : List ProductSaleObj) (s : ProductSaleSettings) (limit : Nat) :
    List ProductSaleObj :=
  (List.insertionSort salesLe (rows.filter (salesWhere s))).take limit

/-- The per-record test of the gap filter:
`all([product_sale.order_fk, product_sale.product_fk])`. -/
def saleFkCheck (s : ProductSaleObj) : Bool :=
  truthyStr s.order_fk && truthyStr s.product_fk

/-- The gap-filter step of `list_sales`. -/
def filterSales (batch : List ProductSaleObj) : List ProductSaleObj :=
  gapFilter saleFkCheck batch

/-- `ProductSalesToDdsWorkflow.list_sales`: SQL read, then the gap filter. -/
def list_sales (rows : List ProductSaleObj) (s : ProductSaleSettings) (limit : Nat) :
    List ProductSaleObj :=
  filterSales (salesRead rows s limit)

/-- A row of `dds.fct_product_sales` as bound by `insert_sale` (note that the
python code binds `order_id := order_fk` and `product_id := product_fk`, and
computes `total_sum := quantity * price`). -/
structure SaleRow where
  product_id : Option String
  order_id : Option String
  count : Int
  price : Int
  total_sum : Int
  bonus_payment : Int
  bonus_grant : Int
deriving DecidableEq

/-- The row `insert_sale` binds for a sale. -/
def rowOf (s : ProductSaleObj) : SaleRow :=
  ⟨s.product_fk, s.order_fk, s.quantity, s.price, s.quantity * s.price,
   s.bonus_payment, s.bonus_grant⟩

/-- `insert_sale`: `INSERT ... ON CONFLICT (product_id, order_id) DO NOTHING`. -/
def upsertSale (t : List SaleRow) (s : ProductSaleObj) : List SaleRow :=
  if t.any (fun r => r.product_id == s.product_fk && r.order_id == s.order_fk) then t
  else t ++ [rowOf s]

/-- Destination-side state touched by `ProductSalesLoader.run`. -/
structure SalesState where
  fct_product_sales : List SaleRow
  wfSettings : Option ProductSaleSettings
deriving DecidableEq

/-- Settings at the start of a run. -/
def settingsOf (st : SalesState) : ProductSaleSettings :=
  st.wfSettings.getD ProductSaleSettings.defaults

/-- `ProductSalesLoader.BATCH_LIMIT`. -/
def BATCH_LIMIT : Nat := 10000

/-- The tail of `ProductSalesLoader.run` applied to a fetched batch. -/
def salesApply (batch : List ProductSaleObj) (st : SalesState) : SalesState :=
  match filterSales batch with
  | [] => st
  | q :: qs =>
    ⟨(q :: qs).foldl upsertSale st.fct_product_sales,
     some (ProductSaleSettings.ofSale (pyMax saleLtB q qs))⟩

/-- `ProductSalesLoader.run` over a modelled source. -/
def salesRun (rows : List ProductSaleObj) (st : SalesState) : SalesState :=
  salesApply (salesRead rows (settingsOf st) BATCH_LIMIT) st

end FctSales

namespace StgOrders

/-- A document of the order system's `orders` collection, as modelled by the
staging `OrderObj` (`_id` and `update_ts` are the fields the reader's filter
and sort touch). -/
structure MongoOrder where
  object_id : Nat
  update_ts : Nat
deriving DecidableEq

/-- The comparison key `(update_ts, _id)`. -/
def mkey (o : MongoOrder) : Lex (Nat × Nat) :=
  toLex (o.update_ts, o.object_id)

/-- The ordering of `sort=[('update_ts', 1), ('_id', 1)]`. -/
abbrev mongoLe : MongoOrder → MongoOrder → Prop := keyLe mkey

/-- The staging `OrderSettings` watermark. -/
structure StgOrderSettings where
  last_loaded_ts : Nat
  last_loaded_oid : Nat
deriving DecidableEq

/-- The mongo filter of `OrdersToStgWorkflow.list_orders`:
`update_ts > ts OR (update_ts = ts AND _id > oid)`. -/
def mongoWhere (s : StgOrderSettings) (o : MongoOrder) : Bool :=
  decide (s.last_loaded_ts < o.update_ts ∨
    (o.update_ts = s.last_loaded_ts ∧ s.last_loaded_oid < o.object_id))

/-- `OrdersToStgWorkflow.list_orders`: `find(filter, sort, limit)` over the
collection. -/
def list_orders (docs : List MongoOrder) (s : StgOrderSettings) (limit : Nat) :
    List MongoOrder :=
  (List.insertionSort mongoLe (docs.filter (mongoWhere s))).take limit

end StgOrders

namespace CdmReports

/-- A row of `RestaurantReportsToCdmWorkflow.list_reports`' aggregate query. -/
structure RestaurantReportObj where
  restaurant_id : String
  restaurant_name : String
  date : Nat
  orders_count : Nat
  orders_total_sum : Int
  bonus_payment_sum : Int
  bonus_granted_sum : Int
deriving DecidableEq

/-- The comparison key of `RestaurantReportObj.__lt__`: the date alone. -/
def rkey (r : RestaurantReportObj) : Nat := r.date

/-- The ordering of `ORDER BY dt.date`. -/
abbrev reportLe : RestaurantReportObj → RestaurantReportObj → Prop := keyLe rkey

/-- The `RestaurantReportSettings` watermark (default `date.min`, i.e. `0`). -/
structure RestaurantReportSettings where
  last_loaded_date : Nat
deriving DecidableEq

/-- Defaults of `RestaurantReportSettings`. -/
def RestaurantReportSettings.defaults : RestaurantReportSettings := ⟨0⟩

/-- The `WHERE` clause of the report query:
`"do".order_status = 'CLOSED' AND dt.date >= date_threshold` — the status
condition is part of the modelled row source; the threshold comparison is
non-strict. -/
def reportsWhere (s : RestaurantReportSettings) (r : RestaurantReportObj) : Bool :=
  decide (s.last_loaded_date ≤ r.date)

/-- `RestaurantReportsToCdmWorkflow.list_reports`: filter (with a `>=`
threshold), `ORDER BY dt.date`, `OFFSET offset LIMIT limit`. -/
def list_reports (rows : List RestaurantReportObj) (s : RestaurantReportSettings)
    (offset limit : Nat) : List RestaurantReportObj :=
  (((List.insertionSort reportLe (rows.filter (reportsWhere s)))).drop offset).take limit

/-- The fully drained result set of the report query for a given watermark:
what the pages of `list_reports` enumerate as the offset grows. -/
def sortedSource (rows : List RestaurantReportObj) (s : RestaurantReportSettings) :
    List RestaurantReportObj :=
  List.insertionSort reportLe (rows.filter (reportsWhere s))

/-- Boolean `RestaurantReportObj.__lt__`. -/
def reportLtB : RestaurantReportObj → RestaurantReportObj → Bool := keyLtB rkey

/-- `RestaurantReportSettings(**last_loaded_report.dict())` through the alias
`date`. -/
def RestaurantReportSettings.ofReport (r : RestaurantReportObj) : RestaurantReportSettings :=
  ⟨r.date⟩

/-- `report.orders_total_sum * 0.25` of `insert_report`.  The float literal
`0.25` is exactly the rational `1/4` and the totals are modelled as integers,
so the product is computed exactly in `ℚ`. -/
def order_processing_fee (r : RestaurantReportObj) : ℚ :=
  (r.orders_total_sum : ℚ) * (25 / 100)

/-- `orders_total_sum - orders_total_sum * 0.25 - bonus_payment_sum` of
`insert_report`. -/
def restaurant_reward_sum (r : RestaurantReportObj) : ℚ :=
  (r.orders_total_sum : ℚ) - (r.orders_total_sum : ℚ) * (25 / 100)
    - (r.bonus_payment_sum : ℚ)

/-- A row of `cdm.dm_settlement_report` as written by `insert_report`. -/
structure ReportRow where
  restaurant_id : String
  restaurant_name : String
  settlement_date : Nat
  orders_count : Nat
  orders_total_sum : Int
  orders_bonus_payment_sum : Int
  orders_bonus_granted_sum : Int
  order_processing_fee : ℚ
  restaurant_reward_sum : ℚ
deriving DecidableEq

/-- The `(settlement_date, restaurant_id)` conflict key of a source
aggregate. -/
def keyOf (r : RestaurantReportObj) : Nat × String :=
  (r.date, r.restaurant_id)

/-- Does a stored row conflict with the aggregate on
`(settlement_date, restaurant_id)`? -/
def keyMatchB (r : RestaurantReportObj) (x : ReportRow) : Bool :=
  x.settlement_date == r.date && x.restaurant_id == r.restaurant_id

/-- The `DO UPDATE SET` branch of `insert_report`: every aggregate column is
set from the excluded row, while the conflict keys and `restaurant_name`
(absent from the `SET` list) keep their stored values. -/
def updRow (x : ReportRow) (r : RestaurantReportObj) : ReportRow :=
  ⟨x.restaurant_id, x.restaurant_name, x.settlement_date, r.orders_count,
   r.orders_total_sum, r.bonus_payment_sum, r.bonus_granted_sum,
   order_processing_fee r, restaurant_reward_sum r⟩

/-- The freshly inserted row of `insert_report`. -/
def newRow (r : RestaurantReportObj) : ReportRow :=
  ⟨r.restaurant_id, r.restaurant_name, r.date, r.orders_count,
   r.orders_total_sum, r.bonus_payment_sum, r.bonus_granted_sum,
   order_processing_fee r, restaurant_reward_sum r⟩

/-- `insert_report`: `INSERT ... ON CONFLICT (settlement_date, restaurant_id)
DO UPDATE SET` the aggregate columns. -/
def insert_report (t : List ReportRow) (r : RestaurantReportObj) : List ReportRow :=
  if t.any (keyMatchB r) then
    t.map (fun x => if keyMatchB r x then updRow x r else x)
  else
    t ++ [newRow r]

/-- Destination-side state touched by `SettlementReportLoader.run`. -/
structure CdmState where
  dm_settlement_report : List ReportRow
  wfSettings : Option RestaurantReportSettings
deriving DecidableEq

/-- Settings at the start of a run. -/
def settingsOf (st : CdmState) : RestaurantReportSettings :=
  st.wfSettings.getD RestaurantReportSettings.defaults

/-- `SettlementReportLoader.BATCH_LIMIT`. -/
def BATCH_LIMIT : Nat := 100

/-- The drain loop of `SettlementReportLoader.run`: read a page at the
current offset; stop on an empty page; otherwise upsert every report of the
page, advance the offset by the page length, remember `max(load_queue)` and
continue. -/
def reportsDrain (rows : List RestaurantReportObj) (s : RestaurantReportSettings)
    (offset : Nat) (table : List ReportRow) (last : Option RestaurantReportObj) :
    List ReportRow × Option RestaurantReportObj :=
  if hq : (list_reports rows s offset BATCH_LIMIT).isEmpty then (table, last)
  else
    reportsDrain rows s (offset + (list_reports rows s offset BATCH_LIMIT).length)
      ((list_reports rows s offset BATCH_LIMIT).foldl insert_report table)
      (pyMaxOpt reportLtB (list_reports rows s offset BATCH_LIMIT))
termination_by (sortedSource rows s).length - offset
decreasing_by
  simp only [List.isEmpty_eq_true] at hq
  have h1 : 0 < (list_reports rows s offset BATCH_LIMIT).length :=
    List.length_pos.mpr hq
  have h3 : offset < (sortedSource rows s).length := by
    by_contra hle
    push_neg at hle
    apply hq
    show (((sortedSource rows s).drop offset).take BATCH_LIMIT) = []
    rw [List.drop_eq_nil_of_le hle]
    rfl
  omega

/-- `SettlementReportLoader.run` over a modelled aggregate row source: load
the settings, drain the source, then save the watermark of the last
non-empty page when one was seen. -/
def reportsRun (rows : List RestaurantReportObj) (st : CdmState) : CdmState :=
  match reportsDrain rows (settingsOf st) 0 st.dm_settlement_report none with
  | (table, none) => ⟨table, st.wfSettings⟩
  | (table, some last) => ⟨table, some (RestaurantReportSettings.ofReport last)⟩

/-- A destination table is stable for an aggregate when it already carries a
conflicting row for its key and re-applying the `DO UPDATE SET` of that
aggregate to every conflicting row changes nothing. -/
def rStable (T : List ReportRow) (r : RestaurantReportObj) : Prop :=
  T.any (keyMatchB r) = true ∧
  ∀ x ∈ T, keyMatchB r x = true → updRow x r = x

end CdmReports

namespace DmCouriers

/-- A row of `CouriersToStgWorkflow.list_couriers`' query over
`stg.deliverysystem_couriers`. -/
structure CourierObj where
  id : Int
  object_id : String
  name : String
deriving DecidableEq

/-- The comparison key of `CourierObj.__lt__`: the integer `id`. -/
def ckey (c : CourierObj) : Int := c.id

/-- Boolean `CourierObj.__lt__`. -/
def courierLtB : CourierObj → CourierObj → Bool := keyLtB ckey

/-- The ordering of `ORDER BY id`. -/
abbrev courierLe : CourierObj → CourierObj → Prop := keyLe ckey

/-- The `CourierSettings` watermark, default `-1`. -/
structure CourierSettings where
  last_loaded_id : Int
deriving DecidableEq

/-- Defaults of `CourierSettings`. -/
def CourierSettings.defaults : CourierSettings := ⟨-1⟩

/-- `CourierSettings(**max(load_queue).dict())` through the alias `id`. -/
def CourierSettings.ofCourier (c : CourierObj) : CourierSettings := ⟨c.id⟩

/-- `CourierSettings(**blob)`. -/
def CourierSettings.ofBlob (b : List (String × EtlSettings.BlobVal)) : CourierSettings :=
  ⟨((EtlSettings.lookupInt b "last_loaded_id").orElse
      (fun _ => EtlSettings.lookupInt b "id")).getD (-1)⟩

/-- The `WHERE id > id_threshold` clause. -/
def couriersWhere (s : CourierSettings) (c : CourierObj) : Bool :=
  decide (s.last_loaded_id < c.id)

/-- `CouriersToStgWorkflow.list_couriers`: filter, `ORDER BY id`, `LIMIT`. -/
def list_couriers (rows : List CourierObj) (s : CourierSettings) (limit : Nat) :
    List CourierObj :=
  (List.insertionSort courierLe (rows.filter (couriersWhere s))).take limit

/-- A row of `dds.dm_couriers`. -/
structure CourierRow where
  courier_id : String
  courier_name : String
deriving DecidableEq

/-- `insert_courier`: `INSERT ... ON CONFLICT (courier_id) DO UPDATE SET
courier_name = EXCLUDED.courier_name`. -/
def upsertCourier (t : List CourierRow) (c : CourierObj) : List CourierRow :=
  if t.any (fun r => r.courier_id == c.object_id) then
    t.map (fun r => if r.courier_id == c.object_id then ⟨c.object_id, c.name⟩ else r)
  else
    t ++ [⟨c.object_id, c.name⟩]

/-- Destination-side state touched by `CouriersLoader.run`. -/
structure CouriersState where
  dm_couriers : List CourierRow
  wfSettings : Option CourierSettings
deriving DecidableEq

/-- Settings at the start of a run. -/
def settingsOf (st : CouriersState) : CourierSettings :=
  st.wfSettings.getD CourierSettings.defaults

/-- `CouriersLoader.BATCH_LIMIT`. -/
def BATCH_LIMIT : Nat := 50

/-- The tail of `CouriersLoader.run` applied to a fetched batch (this loader
has no gap filter). -/
def couriersApply (batch : List CourierObj) (st : CouriersState) : CouriersState :=
  match batch with
  | [] => st
  | q :: qs =>
    ⟨(q :: qs).foldl upsertCourier st.dm_couriers,
     some (CourierSettings.ofCourier (pyMax courierLtB q qs))⟩

/-- `CouriersLoader.run` over a modelled source table. -/
def couriersRun (rows : List CourierObj) (st : CouriersState) : CouriersState :=
  couriersApply (list_couriers rows (settingsOf st) BATCH_LIMIT) st

end DmCouriers

namespace StgDeliveries

/-- A record returned by the `/deliveries` endpoint. -/
structure DeliveryObj where
  delivery_id : Nat
  delivery_ts : Nat
deriving DecidableEq

/-- One page fetch against the delivery API: the server slices the date-sorted
result set at `offset` and returns at most `pageSize` records. -/
def fetchPage {α : Type} (src : List α) (offset pageSize : Nat) : List α :=
  (src.drop offset).take pageSize

/-- The pagination loop of `DeliveriesToStgWorkflow.list_deliveries`:
`while offset < limit: batch = fetch(offset, page_size); if not batch: break;
deliveries += batch; offset += len(batch)`. -/
def pagLoop {α : Type} (src : List α) (pageSize limit offset : Nat) (acc : List α) :
    List α :=
  if _h : offset < limit then
    if hb : (fetchPage src offset pageSize).isEmpty then acc
    else pagLoop src pageSize limit (offset + (fetchPage src offset pageSize).length)
      (acc ++ fetchPage src offset pageSize)
  else acc
termination_by limit - offset
decreasing_by
  simp only [List.isEmpty_eq_true] at hb
  have hpos : 0 < (fetchPage src offset pageSize).length := List.length_pos.mpr hb
  omega

/-- `list_deliveries`: run the pagination loop from offset `0`, then truncate
to the outer limit (`deliveries[:limit]`).  The repository fixes
`page_size = 50`; the page size is kept as a parameter. -/
def list_deliveries {α : Type} (src : List α) (pageSize limit : Nat) : List α :=
  (pagLoop src pageSize limit 0 []).take limit

/-- Modelled from the spec: a single direct read of the first `limit` records
of the ordered source, the behaviour the paginated reader must refine. -/
def directRead {α : Type} (src : List α) (limit : Nat) : List α :=
  src.take limit

/-- The `DeliverySettings` watermark: `last_loaded_ts` has no default (the
field is required), `last_loaded_oid` defaults to the all-zero object id. -/
structure DeliverySettings where
  last_loaded_ts : Nat
  last_loaded_oid : Nat
deriving DecidableEq

/-- `DeliverySettings(**blob)`: pydantic raises a validation error (modelled
as `none`) when neither `last_loaded_ts` nor its alias `delivery_ts` is in the
blob, because the field has no default. -/
def DeliverySettings.ofBlob (b : List (String × EtlSettings.BlobVal)) :
    Option DeliverySettings :=
  match (EtlSettings.lookupTs b "last_loaded_ts").orElse
      (fun _ => EtlSettings.lookupTs b "delivery_ts") with
  | none => none
  | some t =>
    some ⟨t, ((EtlSettings.lookupId b "last_loaded_oid").orElse
        (fun _ => EtlSettings.lookupId b "delivery_id")).getD 0⟩

/-- The checkpoint-loading prelude of `DeliveriesLoader.run(start_date)`:
fetch the settings row; if its settings dict is empty, seed it with
`workflow_settings['delivery_ts'] = start_date`; then parse
`DeliverySettings`. -/
def initSettings (table : List EtlSettings.EtlSetting) (wf_key : String)
    (start_date : Nat) : Option DeliverySettings :=
  let wf := EtlSettings.get_setting table wf_key
  let blob := if wf.workflow_settings.isEmpty then
      [("delivery_ts", EtlSettings.BlobVal.tsv start_date)]
    else wf.workflow_settings
  DeliverySettings.ofBlob blob

end StgDeliveries

namespace SettingsRoundTrip

/-- A Python `datetime` refined to whole seconds since `datetime.min` plus the
microsecond part, so that sub-second precision is observable. -/
structure PyDatetime where
  sec : Nat
  usec : Nat
deriving DecidableEq

/-- The serializer's `obj.strftime("%Y-%m-%d %H:%M:%S")` branch of `to_dict`:
the format renders the calendar fields down to whole seconds and contains no
`%f`, so it is injective on the seconds count and drops the microseconds.
The rendered string is identified with the seconds count it encodes. -/
def strftimeSeconds (d : PyDatetime) : Nat := d.sec

/-- Pydantic's parse of a `"%Y-%m-%d %H:%M:%S"` rendered timestamp back into a
`datetime`: the encoded whole seconds, with microseconds `0`. -/
def parseSeconds (n : Nat) : PyDatetime := ⟨n, 0⟩

/-- A `(timestamp, object id)` watermark as held by `OrderSettings` before
serialization. -/
structure TsOidWatermark where
  last_loaded_ts : PyDatetime
  last_loaded_oid : Nat
deriving DecidableEq

/-- `json2str` applied to the settings model:` to_dict` renders the timestamp
field through `strftime` and the object id through `str(...)`, producing the
stored blob. -/
def json2strBlob (w : TsOidWatermark) : List (String × EtlSettings.BlobVal) :=
  [("last_loaded_oid", EtlSettings.BlobVal.idv w.last_loaded_oid),
   ("last_loaded_ts", EtlSettings.BlobVal.tsv (strftimeSeconds w.last_loaded_ts))]

/-- Deserialization of a stored blob back into the settings model. -/
def ofBlob (b : List (String × EtlSettings.BlobVal)) : TsOidWatermark :=
  ⟨parseSeconds ((EtlSettings.lookupTs b "last_loaded_ts").getD 0),
   (EtlSettings.lookupId b "last_loaded_oid").getD 0⟩

/-- Serialize then deserialize a watermark. -/
def roundTrip (w : TsOidWatermark) : TsOidWatermark :=
  ofBlob (json2strBlob w)

end SettingsRoundTrip

namespace DmRestaurants

/-- A row of `dds.dm_restaurants`: surrogate `id`, natural key
`restaurant_id`, payload `restaurant_name`, and the validity interval. -/
structure RestRow where
  id : Nat
  restaurant_id : String
  restaurant_name : String
  active_from : Nat
  active_to : Nat
deriving DecidableEq

/-- The open-ended `active_to` sentinel `datetime(2099, 12, 31)`. -/
def farFuture : Nat := 20991231

/-- Maximum of a list of naturals, `none` on the empty list (SQL `MAX`). -/
def listMax : List Nat → Option Nat
  | [] => none
  | x :: xs =>
    match listMax xs with
    | none => some x
    | some m => some (max x m)

/-- `SELECT MAX(id) FROM dds.dm_restaurants WHERE restaurant_id = rid`. -/
def latestId (t : List RestRow) (rid : String) : Option Nat :=
  listMax ((t.filter (fun r => r.restaurant_id == rid)).map (fun r => r.id))

/-- A closed copy of a row: `SET active_to = ts`. -/
def closeRow (r : RestRow) (ts : Nat) : RestRow :=
  ⟨r.id, r.restaurant_id, r.restaurant_name, r.active_from, ts⟩

/-- The CTE `update_restaurant_active_to`: close the row whose `id` is the
maximal id stored for this natural key, provided its name differs from the
incoming one. -/
def closeLatest (t : List RestRow) (rid name : String) (ts : Nat) : List RestRow :=
  match latestId t rid with
  | none => t
  | some i =>
    t.map (fun r =>
      if r.id == i && r.restaurant_name != name then closeRow r ts else r)

/-- The next surrogate id the serial primary key assigns. -/
def nextId (t : List RestRow) : Nat :=
  (listMax (t.map (fun r => r.id))).getD 0 + 1

/-- `RestaurantsToStgWorkflow.insert_restaurant`: one SQL statement made of a
data-modifying CTE (close the key's latest row when its name differs) and the
main `INSERT ... ON CONFLICT (restaurant_id, active_to) DO NOTHING` of the new
open row `(rid, name, active_from := ts, active_to := farFuture)`.  In
PostgreSQL the sub-statements of a data-modifying `WITH` run on the same
snapshot and cannot see one another's effects, and their execution order is
documented as unpredictable; the engine runs an unreferenced data-modifying
CTE after the main statement, so the `INSERT`'s conflict check sees the table
as it is before the CTE's close.  The model therefore checks the conflict
against the incoming table state and applies the close regardless. -/
def insert_restaurant (t : List RestRow) (rid name : String) (ts : Nat) : List RestRow :=
  if t.any (fun r => r.restaurant_id == rid && r.active_to == farFuture) then
    closeLatest t rid name ts
  else
    closeLatest t rid name ts ++ [⟨nextId t, rid, name, ts, farFuture⟩]

end DmRestaurants

/-! Concrete sample data used by counterexamples and witnesses. -/

/-- An order record all of whose required references resolved, but whose
resolved user key is the integer `0`. -/
def c1rec : DmOrders.OrderObj := ⟨1, 1, "CLOSED", some 0, some 1, some 1⟩

/-- An order record with an unresolved (absent) user reference. -/
def cAbsentRec : DmOrders.OrderObj := ⟨2, 2, "CLOSED", none, some 1, some 1⟩

/-- A two-record batch that passes the gap-filter check everywhere. -/
def c1okBatch : List DmOrders.OrderObj :=
  [⟨1, 1, "OPEN", some 2, some 3, some 4⟩, ⟨2, 2, "CLOSED", some 5, some 6, some 7⟩]

/-- An order record passing the gap-filter check. -/
def c10okRec : DmOrders.OrderObj := ⟨3, 3, "CLOSED", some 4, some 5, some 6⟩

/-- A sale record whose order reference resolved to the empty string. -/
def c10saleRec : FctSales.ProductSaleObj := ⟨11, 100, 2, 0, 0, 9, some "", some "5"⟩

/-- An aggregate report row whose date equals the stored watermark date. -/
def c4rpt : CdmReports.RestaurantReportObj := ⟨"r1", "N", 5, 1, 100, 0, 0⟩

/-- An order join row used by witnesses. -/
def c2rec : DmOrders.OrderObj := ⟨7, 5, "CLOSED", some 1, some 1, some 1⟩

/-- A product-sale join row used by witnesses. -/
def c2saleRec : FctSales.ProductSaleObj := ⟨8, 100, 2, 10, 20, 6, some "3", some "4"⟩

/-- A seven-record date-ordered delivery source. -/
def c6src : List StgDeliveries.DeliveryObj :=
  [⟨1, 1⟩, ⟨2, 2⟩, ⟨3, 3⟩, ⟨4, 4⟩, ⟨5, 5⟩, ⟨6, 6⟩, ⟨7, 7⟩]

/-- Fifty-one courier rows with ids `1..51`: one more than the batch limit. -/
def c7rows : List DmCouriers.CourierObj :=
  (List.range 51).map (fun i => ⟨(i : Int) + 1, "c", "n"⟩)

/-- A watermark whose timestamp has a non-zero sub-second part. -/
def c9subsec : SettingsRoundTrip.TsOidWatermark := ⟨⟨5, 123456⟩, 9⟩

/-! Helper lemmas. -/

theorem gapFilter_eq_take_findIdx {α : Type} (check : α → Bool) (l : List α) :
    gapFilter check l = l.take (l.findIdx (fun x => ! check x)) := by
  induction l with
  | nil => rfl
  | cons x xs ih =>
    by_cases h : check x
    · simp [gapFilter, h, List.findIdx_cons, ih]
    · simp [gapFilter, h, List.findIdx_cons]

theorem gapFilter_eq_self {α : Type} (check : α → Bool) (l : List α)
    (h : ∀ x ∈ l, check x = true) : gapFilter check l = l := by
  induction l with
  | nil => rfl
  | cons x xs ih =>
    simp only [gapFilter, h x (List.mem_cons_self x xs), if_true]
    exact congrArg (x :: ·) (ih fun y hy => h y (List.mem_cons_of_mem x hy))

theorem gapFilter_append {α : Type} (check : α → Bool) (pre : List α) (r : α)
    (post : List α) (hpre : ∀ x ∈ pre, check x = true) (hr : check r = false) :
    gapFilter check (pre ++ r :: post) = pre := by
  induction pre with
  | nil => simp [gapFilter, hr]
  | cons x xs ih =>
    simp only [List.cons_append, gapFilter, hpre x (List.mem_cons_self x xs), if_true]
    exact congrArg (x :: ·) (ih fun y hy => hpre y (List.mem_cons_of_mem x hy))

theorem pyMax_mem {α : Type} (ltb : α → α → Bool) (xs : List α) :
    ∀ x, pyMax ltb x xs ∈ x :: xs := by
  induction xs with
  | nil => intro x; simp [pyMax]
  | cons y ys ih =>
    intro x
    have hstep : pyMax ltb x (y :: ys) = pyMax ltb (if ltb x y then y else x) ys := rfl
    by_cases hxy : ltb x y
    · rw [hstep, if_pos hxy]
      exact List.mem_cons_of_mem _ (ih y)
    · rw [hstep, if_neg hxy]
      rcases List.mem_cons.mp (ih x) with h | h
      · rw [h]; exact List.mem_cons_self _ _
      · exact List.mem_cons_of_mem _ (List.mem_cons_of_mem _ h)

theorem pyMax_key_ge {α κ : Type} [LinearOrder κ] (key : α → κ) (xs : List α) :
    ∀ x, ∀ y ∈ x :: xs, key y ≤ key (pyMax (keyLtB key) x xs) := by
  induction xs with
  | nil =>
    intro x y hy
    rcases List.mem_cons.mp hy with h | h
    · subst h; exact le_refl _
    · cases h
  | cons z zs ih =>
    intro x y hy
    have hstep : pyMax (keyLtB key) x (z :: zs)
        = pyMax (keyLtB key) (if keyLtB key x z then z else x) zs := rfl
    rw [hstep]
    have hacc : key x ≤ key (if keyLtB key x z then z else x) ∧
        key z ≤ key (if keyLtB key x z then z else x) := by
      by_cases h : keyLtB key x z
      · have hlt : key x < key z := of_decide_eq_true h
        rw [if_pos h]
        exact ⟨le_of_lt hlt, le_refl _⟩
      · have hnlt : ¬ key x < key z :=
          of_decide_eq_false (Bool.of_not_eq_true h)
        rw [if_neg h]
        exact ⟨le_refl _, le_of_not_lt hnlt⟩
    rcases List.mem_cons.mp hy with h | h
    · subst h
      exact le_trans hacc.1 (ih _ _ (List.mem_cons_self _ _))
    · rcases List.mem_cons.mp h with h' | h'
      · subst h'
        exact le_trans hacc.2 (ih _ _ (List.mem_cons_self _ _))
      · exact ih _ _ (List.mem_cons_of_mem _ h')

/-! Claim C1: the join-and-gap filter. -/

/-- C1 counterexample: a one-record batch in which every required reference
resolved (all three foreign keys are `some _`), yet the filter does not return
the batch unchanged — it truncates at the record because the resolved user key
is the falsy integer `0`.  This refutes the claim that a batch whose records
all have their required references resolved is returned unchanged, and hence
that truncation happens exactly at the first record with an absent
reference. -/
theorem c1_counterexample :
    c1rec.user_fk.isSome = true ∧ c1rec.restaurant_fk.isSome = true ∧
    c1rec.timestamp_fk.isSome = true ∧
    DmOrders.filterOrders [c1rec] = [] ∧
    [c1rec] ≠ ([] : List DmOrders.OrderObj) := by
  decide

/-- C1 (amended): the gap filter scans the ordered batch and returns exactly
the records strictly before the first one failing the presence check of the
required references, where a reference that is absent or resolved to a
Python-falsy value (`0`) fails the check; it never reorders (the result is a
list-prefix of the batch), and when every record passes the check the batch is
returned unchanged. -/
theorem c1_gap_filter_truncates (batch : List DmOrders.OrderObj) :
    DmOrders.filterOrders batch
        = batch.take (batch.findIdx (fun o => ! DmOrders.orderFkCheck o))
      ∧ ((∀ o ∈ batch, DmOrders.orderFkCheck o = true) →
          DmOrders.filterOrders batch = batch)
      ∧ ∃ rest, batch = DmOrders.filterOrders batch ++ rest := by
  refine ⟨gapFilter_eq_take_findIdx _ _, fun h => gapFilter_eq_self _ _ h, ?_⟩
  refine ⟨batch.drop (batch.findIdx (fun o => ! DmOrders.orderFkCheck o)), ?_⟩
  rw [DmOrders.filterOrders, gapFilter_eq_take_findIdx, List.take_append_drop]

/-- C1 witness: the amended theorem applied to a concrete all-resolved batch,
which the filter returns unchanged. -/
theorem c1_gap_filter_truncates_witness :
    DmOrders.filterOrders c1okBatch = c1okBatch :=
  (c1_gap_filter_truncates c1okBatch).2.1 (by decide)

/-! Claim C10: falsy resolved references truncate like absent ones. -/

/-- C10: in the gap filter a required reference that resolved to the falsy
value — integer `0` for the order loader's integer surrogate keys, the empty
string for the sales loader's string keys — is treated exactly like an absent
reference: the batch is truncated immediately before that record although the
reference did resolve (`isSome`). -/
theorem c10_falsy_fk_truncates :
    (∀ (pre post : List DmOrders.OrderObj) (r : DmOrders.OrderObj),
        (∀ o ∈ pre, DmOrders.orderFkCheck o = true) → r.user_fk = some 0 →
        r.restaurant_fk.isSome = true → r.timestamp_fk.isSome = true →
        DmOrders.filterOrders (pre ++ r :: post) = pre)
  ∧ (∀ (pre post : List FctSales.ProductSaleObj) (s : FctSales.ProductSaleObj),
        (∀ x ∈ pre, FctSales.saleFkCheck x = true) → s.order_fk = some "" →
        s.product_fk.isSome = true →
        FctSales.filterSales (pre ++ s :: post) = pre) := by
  constructor
  · intro pre post r hpre hu _ _
    refine gapFilter_append _ _ _ _ hpre ?_
    simp [DmOrders.orderFkCheck, hu, truthyInt]
  · intro pre post s hpre ho _
    refine gapFilter_append _ _ _ _ hpre ?_
    simp [FctSales.saleFkCheck, ho, truthyStr]

/-- C10 witness: concrete batches truncated at a record whose reference
resolved to `0` (orders) and to `""` (sales). -/
theorem c10_falsy_fk_truncates_witness :
    DmOrders.filterOrders ([c10okRec] ++ c1rec :: []) = [c10okRec] ∧
    FctSales.filterSales ([] ++ c10saleRec :: []) = [] :=
  ⟨c10_falsy_fk_truncates.1 [c10okRec] [] c1rec (by decide) rfl rfl rfl,
   c10_falsy_fk_truncates.2 [] [] c10saleRec (by decide) rfl rfl⟩

/-! Claim C2: the persisted watermark is the key of the maximum batch record. -/

/-- C2: for the orders and product-sales loaders, a run over a non-empty
filtered batch persists as the new watermark exactly the comparison key of the
batch's `max(...)` record, which is a member of the batch and is maximal in it
under the record's total order; a run whose filtered batch is empty returns
with the destination table and the stored watermark unchanged. -/
theorem c2_watermark_is_max :
    (∀ (rows : List DmOrders.OrderObj) (st : DmOrders.OrdersState),
      (DmOrders.list_orders rows (DmOrders.settingsOf st) DmOrders.BATCH_LIMIT = [] →
          DmOrders.ordersRun rows st = st)
      ∧ ∀ q qs,
          DmOrders.list_orders rows (DmOrders.settingsOf st) DmOrders.BATCH_LIMIT = q :: qs →
          (DmOrders.ordersRun rows st).wfSettings
              = some (DmOrders.OrderSettings.ofOrder (pyMax DmOrders.orderLtB q qs))
            ∧ pyMax DmOrders.orderLtB q qs ∈ q :: qs
            ∧ ∀ y ∈ q :: qs, DmOrders.okey y ≤ DmOrders.okey (pyMax DmOrders.orderLtB q qs))
  ∧ (∀ (rows : List FctSales.ProductSaleObj) (st : FctSales.SalesState),
      (FctSales.list_sales rows (FctSales.settingsOf st) FctSales.BATCH_LIMIT = [] →
          FctSales.salesRun rows st = st)
      ∧ ∀ q qs,
          FctSales.list_sales rows (FctSales.settingsOf st) FctSales.BATCH_LIMIT = q :: qs →
          (FctSales.salesRun rows st).wfSettings
              = some (FctSales.ProductSaleSettings.ofSale (pyMax FctSales.saleLtB q qs))
            ∧ pyMax FctSales.saleLtB q qs ∈ q :: qs
            ∧ ∀ y ∈ q :: qs, FctSales.skey y ≤ FctSales.skey (pyMax FctSales.saleLtB q qs)) := by
  constructor
  · intro rows st
    constructor
    · intro h
      have h' : DmOrders.filterOrders
          (DmOrders.ordersRead rows (DmOrders.settingsOf st) DmOrders.BATCH_LIMIT) = [] := h
      unfold DmOrders.ordersRun DmOrders.ordersApply
      rw [h']
    · intro q qs h
      have h' : DmOrders.filterOrders
          (DmOrders.ordersRead rows (DmOrders.settingsOf st) DmOrders.BATCH_LIMIT) = q :: qs := h
      unfold DmOrders.ordersRun DmOrders.ordersApply
      rw [h']
      exact ⟨rfl, pyMax_mem _ _ _, pyMax_key_ge DmOrders.okey qs q⟩
  · intro rows st
    constructor
    · intro h
      have h' : FctSales.filterSales
          (FctSales.salesRead rows (FctSales.settingsOf st) FctSales.BATCH_LIMIT) = [] := h
      unfold FctSales.salesRun FctSales.salesApply
      rw [h']
    · intro q qs h
      have h' : FctSales.filterSales
          (FctSales.salesRead rows (FctSales.settingsOf st) FctSales.BATCH_LIMIT) = q :: qs := h
      unfold FctSales.salesRun FctSales.salesApply
      rw [h']
      exact ⟨rfl, pyMax_mem _ _ _, pyMax_key_ge FctSales.skey qs q⟩

/-- C2 witness: an empty-source run changes nothing, and a one-record run
persists that record's key as the watermark. -/
theorem c2_watermark_is_max_witness :
    DmOrders.ordersRun [] ⟨[], none⟩ = ⟨[], none⟩
  ∧ (DmOrders.ordersRun [c2rec] ⟨[], none⟩).wfSettings
      = some (DmOrders.OrderSettings.ofOrder (pyMax DmOrders.orderLtB c2rec []))
  ∧ (FctSales.salesRun [c2saleRec] ⟨[], none⟩).wfSettings
      = some (FctSales.ProductSaleSettings.ofSale (pyMax FctSales.saleLtB c2saleRec [])) :=
  ⟨(c2_watermark_is_max.1 [] ⟨[], none⟩).1 (by decide),
   ((c2_watermark_is_max.1 [c2rec] ⟨[], none⟩).2 c2rec [] (by decide)).1,
   ((c2_watermark_is_max.2 [c2saleRec] ⟨[], none⟩).2 c2saleRec [] (by decide)).1⟩

/-! Claim C3: transactional atomicity of writes and watermark. -/

theorem except_ok_bind {ε β γ : Type} (a : β) (f : β → Except ε γ) :
    (Except.ok a : Except ε β) >>= f = f a := rfl

theorem foldlM_writeStep {ε : Type} (writeE : DmOrders.OrderObj → Except ε Unit)
    (l : List DmOrders.OrderObj) (h : ∀ o ∈ l, writeE o = .ok ()) :
    ∀ acc, l.foldlM (DmOrders.writeStep writeE) acc = .ok (l.foldl DmOrders.upsertOrder acc) := by
  induction l with
  | nil => intro acc; rfl
  | cons x xs ih =>
    intro acc
    have hx : writeE x = .ok () := h x (List.mem_cons_self _ _)
    have hstep : DmOrders.writeStep writeE acc x = .ok (DmOrders.upsertOrder acc x) := by
      unfold DmOrders.writeStep
      rw [hx]; rfl
    calc (x :: xs).foldlM (DmOrders.writeStep writeE) acc
        = DmOrders.writeStep writeE acc x >>= fun acc' =>
            xs.foldlM (DmOrders.writeStep writeE) acc' := by
          rw [List.foldlM_cons]
      _ = xs.foldlM (DmOrders.writeStep writeE) (DmOrders.upsertOrder acc x) := by
          rw [hstep]; rfl
      _ = .ok ((x :: xs).foldl DmOrders.upsertOrder acc) :=
          ih (fun o ho => h o (List.mem_cons_of_mem _ ho)) _

/-- C3: the destination connection scope commits the run body atomically.  If
any step of the body (reading the batch, one of the record writes, saving the
checkpoint) raises, the scope rolls back and re-raises, so the committed state
is exactly the pre-run state — no row and no watermark from the invocation
survives.  If every step succeeds, the committed state carries both the
records written and the new watermark, i.e. exactly the pure run result on the
batch that was read. -/
theorem c3_transaction_atomic {ε : Type}
    (readE : DmOrders.OrderSettings → Except ε (List DmOrders.OrderObj))
    (writeE : DmOrders.OrderObj → Except ε Unit)
    (saveE : DmOrders.OrderSettings → Except ε Unit) (st : DmOrders.OrdersState) :
    (∀ e, DmOrders.ordersRunE readE writeE saveE st = .error e →
        pgScope st (DmOrders.ordersRunE readE writeE saveE) = (st, some e))
  ∧ (∀ batch, readE (DmOrders.settingsOf st) = .ok batch →
      (∀ o ∈ DmOrders.filterOrders batch, writeE o = .ok ()) →
      (∀ s, saveE s = .ok ()) →
      pgScope st (DmOrders.ordersRunE readE writeE saveE)
        = (DmOrders.ordersApply batch st, none)) := by
  constructor
  · intro e h
    unfold pgScope
    rw [h]
  · intro batch hread hwrite hsave
    have hbody : DmOrders.ordersRunE readE writeE saveE st
        = .ok (DmOrders.ordersApply batch st) := by
      cases hq : DmOrders.filterOrders batch with
      | nil =>
        simp only [DmOrders.ordersRunE, DmOrders.ordersApply, hread, except_ok_bind, hq]
        rfl
      | cons q qs =>
        have hw : ∀ o ∈ q :: qs, writeE o = .ok () := by rw [← hq]; exact hwrite
        have h1 := foldlM_writeStep writeE (q :: qs) hw st.dm_orders
        simp only [DmOrders.ordersRunE, DmOrders.ordersApply, hread, except_ok_bind, hq, h1,
          hsave]
        rfl
    unfold pgScope
    rw [hbody]

/-- C3 witness: a run whose write raises commits nothing, and a run whose
steps all succeed commits rows and watermark together. -/
theorem c3_transaction_atomic_witness :
    pgScope (⟨[], none⟩ : DmOrders.OrdersState)
        (DmOrders.ordersRunE (fun _ => .ok [c2rec]) (fun _ => .error "boom")
          (fun _ => .ok ()))
      = (⟨[], none⟩, some "boom")
  ∧ pgScope (⟨[], none⟩ : DmOrders.OrdersState)
        (DmOrders.ordersRunE (fun _ => (.ok [c2rec] : Except String _))
          (fun _ => .ok ()) (fun _ => .ok ()))
      = (DmOrders.ordersApply [c2rec] ⟨[], none⟩, none) :=
  ⟨(c3_transaction_atomic (fun _ => .ok [c2rec]) (fun _ => .error "boom")
      (fun _ => .ok ()) ⟨[], none⟩).1 "boom" rfl,
   (c3_transaction_atomic (fun _ => (.ok [c2rec] : Except String _)) (fun _ => .ok ())
      (fun _ => .ok ()) ⟨[], none⟩).2 [c2rec] rfl (fun _ _ => rfl) (fun _ => rfl)⟩

/-! Claim C4: the batch readers' contract. -/

theorem readT_mem {α κ : Type} [LinearOrder κ] (key : α → κ) (w : α → Bool)
    (rows : List α) (limit : Nat) :
    ∀ o ∈ (List.insertionSort (keyLe key) (rows.filter w)).take limit, w o = true := by
  intro o ho
  have h1 : o ∈ List.insertionSort (keyLe key) (rows.filter w) :=
    (List.take_sublist _ _).subset ho
  exact List.of_mem_filter ((List.mem_insertionSort (keyLe key)).mp h1)

theorem readT_sorted {α κ : Type} [LinearOrder κ] (key : α → κ) (w : α → Bool)
    (rows : List α) (offset limit : Nat) :
    List.Pairwise (keyLe key)
      (((List.insertionSort (keyLe key) (rows.filter w)).drop offset).take limit) := by
  have hs : List.Pairwise (keyLe key) (List.insertionSort (keyLe key) (rows.filter w)) :=
    List.sorted_insertionSort (keyLe key) (rows.filter w)
  exact List.Pairwise.sublist ((List.take_sublist _ _).trans (List.drop_sublist _ _)) hs

theorem readT_len {α κ : Type} [LinearOrder κ] (key : α → κ) (w : α → Bool)
    (rows : List α) (offset limit : Nat) :
    (((List.insertionSort (keyLe key) (rows.filter w)).drop offset).take limit).length
      ≤ limit :=
  List.length_take_le _ _

/-- C4 counterexample: the settlement-report reader returns a row whose
comparison key (its date) equals the stored watermark date — the `WHERE`
clause uses `>=` — refuting the claim that every batch reader returns only
records with comparison key strictly greater than the watermark. -/
theorem c4_counterexample :
    CdmReports.list_reports [c4rpt] ⟨5⟩ 0 10 = [c4rpt] ∧
    ¬ ((⟨5⟩ : CdmReports.RestaurantReportSettings).last_loaded_date < CdmReports.rkey c4rpt) := by
  constructor
  · rfl
  · decide

/-- C4 (amended): every reader returns a batch sorted ascending by its
comparison key with at most `limit` records; the dds orders reader and the
staging (mongo) orders reader return only records strictly greater than the
watermark under lexicographic comparison of `(timestamp, object id)`, while
the settlement-report reader returns records whose date is greater than *or
equal to* the stored date. -/
theorem c4_readers_contract :
    (∀ (rows : List DmOrders.OrderObj) (s : DmOrders.OrderSettings) (limit : Nat),
        (∀ o ∈ DmOrders.ordersRead rows s limit,
            toLex (s.last_loaded_ts, s.last_loaded_oid) < DmOrders.okey o)
      ∧ List.Pairwise DmOrders.ordersLe (DmOrders.ordersRead rows s limit)
      ∧ (DmOrders.ordersRead rows s limit).length ≤ limit)
  ∧ (∀ (docs : List StgOrders.MongoOrder) (s : StgOrders.StgOrderSettings) (limit : Nat),
        (∀ o ∈ StgOrders.list_orders docs s limit,
            toLex (s.last_loaded_ts, s.last_loaded_oid) < StgOrders.mkey o)
      ∧ List.Pairwise StgOrders.mongoLe (StgOrders.list_orders docs s limit)
      ∧ (StgOrders.list_orders docs s limit).length ≤ limit)
  ∧ (∀ (rows : List CdmReports.RestaurantReportObj)
        (s : CdmReports.RestaurantReportSettings) (offset limit : Nat),
        (∀ r ∈ CdmReports.list_reports rows s offset limit,
            s.last_loaded_date ≤ CdmReports.rkey r)
      ∧ List.Pairwise CdmReports.reportLe (CdmReports.list_reports rows s offset limit)
      ∧ (CdmReports.list_reports rows s offset limit).length ≤ limit) := by
  refine ⟨fun rows s limit => ⟨?_, ?_, ?_⟩, fun docs s limit => ⟨?_, ?_, ?_⟩,
    fun rows s offset limit => ⟨?_, ?_, ?_⟩⟩
  · intro o ho
    have hw : DmOrders.ordersWhere s o = true := readT_mem DmOrders.okey _ rows limit o ho
    have hp := of_decide_eq_true hw
    rw [DmOrders.okey, Prod.Lex.lt_iff]
    rcases hp with h | ⟨h1, h2⟩
    · exact Or.inl h
    · exact Or.inr ⟨h1.symm, h2⟩
  · exact List.Pairwise.sublist (List.take_sublist _ _)
      (List.sorted_insertionSort DmOrders.ordersLe (rows.filter (DmOrders.ordersWhere s)))
  · exact List.length_take_le _ _
  · intro o ho
    have hw : StgOrders.mongoWhere s o = true := readT_mem StgOrders.mkey _ docs limit o ho
    have hp := of_decide_eq_true hw
    rw [StgOrders.mkey, Prod.Lex.lt_iff]
    rcases hp with h | ⟨h1, h2⟩
    · exact Or.inl h
    · exact Or.inr ⟨h1.symm, h2⟩
  · exact List.Pairwise.sublist (List.take_sublist _ _)
      (List.sorted_insertionSort StgOrders.mongoLe (docs.filter (StgOrders.mongoWhere s)))
  · exact List.length_take_le _ _
  · intro r hr
    have hw : CdmReports.reportsWhere s r = true := by
      have h1 : r ∈ List.insertionSort CdmReports.reportLe
          (rows.filter (CdmReports.reportsWhere s)) :=
        ((List.take_sublist _ _).trans (List.drop_sublist _ _)).subset hr
      exact List.of_mem_filter ((List.mem_insertionSort _).mp h1)
    exact of_decide_eq_true hw
  · exact readT_sorted CdmReports.rkey (CdmReports.reportsWhere s) rows offset limit
  · exact List.length_take_le _ _

/-- C4 witness: the contract instantiated on concrete single-record sources
for all three readers. -/
theorem c4_readers_contract_witness :
    toLex ((3 : Nat), (0 : Nat)) < DmOrders.okey c2rec
  ∧ toLex ((3 : Nat), (0 : Nat)) < StgOrders.mkey ⟨4, 9⟩
  ∧ (4 : Nat) ≤ CdmReports.rkey c4rpt :=
  ⟨((c4_readers_contract.1 [c2rec] ⟨3, 0⟩ 7).1 c2rec (by decide)),
   ((c4_readers_contract.2.1 [⟨4, 9⟩] ⟨3, 0⟩ 7).1 ⟨4, 9⟩ (by decide)),
   ((c4_readers_contract.2.2 [c4rpt] ⟨4⟩ 0 7).1 c4rpt (by decide))⟩

/-! Claim C6: two-level pagination refines a single direct read. -/

theorem pagLoop_take {α : Type} (src : List α) (pageSize limit : Nat)
    (hps : 0 < pageSize) :
    ∀ fuel offset, limit - offset ≤ fuel →
      (StgDeliveries.pagLoop src pageSize limit offset (src.take offset)).take limit
        = src.take limit := by
  intro fuel
  induction fuel with
  | zero =>
    intro offset hoff
    have hle : limit ≤ offset := by omega
    rw [StgDeliveries.pagLoop]
    rw [dif_neg (by omega : ¬ offset < limit)]
    rw [List.take_take, Nat.min_eq_left hle]
  | succ n ih =>
    intro offset hoff
    rw [StgDeliveries.pagLoop]
    by_cases hlt : offset < limit
    · rw [dif_pos hlt]
      by_cases hemp : (StgDeliveries.fetchPage src offset pageSize).isEmpty
      · rw [dif_pos hemp]
        have hnil : (src.drop offset).take pageSize = [] := by
          simpa [StgDeliveries.fetchPage] using hemp
        have hlen : src.length ≤ offset := by
          rcases List.eq_nil_or_concat (src.drop offset) with h | ⟨l, a, h⟩
          · have := List.drop_eq_nil_iff.mp h
            omega
          · exfalso
            have : ((src.drop offset).take pageSize).length = 0 := by rw [hnil]; rfl
            rw [List.length_take] at this
            have h1 : 0 < (src.drop offset).length := by
              rw [h]; simp
            omega
        rw [List.take_of_length_le hlen, List.take_of_length_le (by omega)]
      · rw [dif_neg hemp]
        have hlen : 0 < (StgDeliveries.fetchPage src offset pageSize).length :=
          List.length_pos.mpr (by simpa [List.isEmpty_eq_true] using hemp)
        have hacc : src.take offset ++ StgDeliveries.fetchPage src offset pageSize
            = src.take (offset + (StgDeliveries.fetchPage src offset pageSize).length) := by
          rw [StgDeliveries.fetchPage, List.length_take, List.length_drop]
          rcases Nat.le_total pageSize (src.length - offset) with hc | hc
          · rw [Nat.min_eq_left hc, List.take_add]
          · rw [Nat.min_eq_right hc]
            have h1 : (src.drop offset).take pageSize = src.drop offset :=
              List.take_of_length_le (by rw [List.length_drop]; omega)
            have h2 : src.take (offset + (src.length - offset)) = src :=
              List.take_of_length_le (by omega)
            rw [h1, h2, List.take_append_drop]
        rw [hacc]
        exact ih (offset + (StgDeliveries.fetchPage src offset pageSize).length) (by omega)
    · rw [dif_neg hlt]
      rw [List.take_take, Nat.min_eq_left (by omega)]

/-- C6: for every date-ordered delivery source, inner page size and outer
limit, the paginated reader — repeated fixed-size page fetches at an
accumulating offset until an empty page or `limit` records, then truncation
to `limit` — returns exactly the same ordered records as one direct read of
the first `limit` records, provided pages are non-trivial (`0 < pageSize`). -/
theorem c6_pagination_equivalence (src : List StgDeliveries.DeliveryObj)
    (pageSize limit : Nat) (hps : 0 < pageSize) :
    StgDeliveries.list_deliveries src pageSize limit
      = StgDeliveries.directRead src limit := by
  have h := pagLoop_take src pageSize limit hps limit 0 (by omega)
  simpa [StgDeliveries.list_deliveries, StgDeliveries.directRead] using h

/-- C6 witness: inner page size 2 and outer limit 5 over the seven-record
source yield exactly the first five records, in order. -/
theorem c6_pagination_equivalence_witness :
    StgDeliveries.list_deliveries c6src 2 5 = StgDeliveries.directRead c6src 5 ∧
    StgDeliveries.directRead c6src 5 = [⟨1, 1⟩, ⟨2, 2⟩, ⟨3, 3⟩, ⟨4, 4⟩, ⟨5, 5⟩] :=
  ⟨c6_pagination_equivalence c6src 2 5 (by decide), by decide⟩

/-! Claim C7: idempotence of a repeated run. -/

set_option maxRecDepth 20000 in
/-- C7 counterexample: with 51 pending courier rows and the batch limit of 50,
the first run loads rows 1..50 and sets the watermark to 50; the source gains
no new record, yet the second run loads row 51 and moves the watermark to 51
— the destination and watermark are not left unchanged. -/
theorem c7_counterexample :
    (DmCouriers.couriersRun c7rows (DmCouriers.couriersRun c7rows ⟨[], none⟩)).wfSettings
      ≠ (DmCouriers.couriersRun c7rows ⟨[], none⟩).wfSettings := by
  decide

/-- Helper for claim C7: for the single-batch couriers pipeline, if the first
run drains the source — the records past the current watermark fit into the
batch limit — then running the pipeline again with no new source records
leaves the destination table and the stored watermark exactly as the first
run left them (the second run reads an empty batch and stops). -/
theorem couriers_idempotent_of_drained (rows : List DmCouriers.CourierObj)
    (st : DmCouriers.CouriersState)
    (h : (rows.filter (DmCouriers.couriersWhere (DmCouriers.settingsOf st))).length
          ≤ DmCouriers.BATCH_LIMIT) :
    DmCouriers.couriersRun rows (DmCouriers.couriersRun rows st)
      = DmCouriers.couriersRun rows st := by
  have hlc : DmCouriers.list_couriers rows (DmCouriers.settingsOf st) DmCouriers.BATCH_LIMIT
      = List.insertionSort DmCouriers.courierLe
          (rows.filter (DmCouriers.couriersWhere (DmCouriers.settingsOf st))) :=
    List.take_of_length_le (by rw [List.length_insertionSort]; exact h)
  cases hb : List.insertionSort DmCouriers.courierLe
      (rows.filter (DmCouriers.couriersWhere (DmCouriers.settingsOf st))) with
  | nil =>
    have hrun : DmCouriers.couriersRun rows st = st := by
      unfold DmCouriers.couriersRun
      rw [hlc, hb]
      rfl
    rw [hrun]
    exact hrun
  | cons q qs =>
    have hmemf : pyMax DmCouriers.courierLtB q qs ∈
        rows.filter (DmCouriers.couriersWhere (DmCouriers.settingsOf st)) := by
      have := pyMax_mem DmCouriers.courierLtB qs q
      rw [show q :: qs = List.insertionSort DmCouriers.courierLe
        (rows.filter (DmCouriers.couriersWhere (DmCouriers.settingsOf st))) from hb.symm] at this
      exact (List.mem_insertionSort _).mp this
    have hgt : (DmCouriers.settingsOf st).last_loaded_id
        < (pyMax DmCouriers.courierLtB q qs).id := by
      have hw := List.of_mem_filter hmemf
      simpa [DmCouriers.couriersWhere] using hw
    have hrun1 : DmCouriers.couriersRun rows st
        = ⟨(q :: qs).foldl DmCouriers.upsertCourier st.dm_couriers,
           some (DmCouriers.CourierSettings.ofCourier (pyMax DmCouriers.courierLtB q qs))⟩ := by
      unfold DmCouriers.couriersRun
      rw [hlc, hb]
      rfl
    have hempty : rows.filter (DmCouriers.couriersWhere
        ⟨(pyMax DmCouriers.courierLtB q qs).id⟩) = [] := by
      rw [List.filter_eq_nil_iff]
      intro c hc
      simp only [DmCouriers.couriersWhere, decide_eq_true_eq, not_lt]
      by_cases hcw : DmCouriers.couriersWhere (DmCouriers.settingsOf st) c = true
      · have hcq : c ∈ q :: qs := by
          rw [show q :: qs = List.insertionSort DmCouriers.courierLe
            (rows.filter (DmCouriers.couriersWhere (DmCouriers.settingsOf st))) from hb.symm]
          exact (List.mem_insertionSort _).mpr (List.mem_filter.mpr ⟨hc, hcw⟩)
        exact pyMax_key_ge DmCouriers.ckey qs q c hcq
      · have hcle : c.id ≤ (DmCouriers.settingsOf st).last_loaded_id :=
          not_lt.mp (of_decide_eq_false (Bool.of_not_eq_true hcw))
        exact le_of_lt (lt_of_le_of_lt hcle hgt)
    have hset : DmCouriers.settingsOf
        ⟨(q :: qs).foldl DmCouriers.upsertCourier st.dm_couriers,
         some (DmCouriers.CourierSettings.ofCourier (pyMax DmCouriers.courierLtB q qs))⟩
        = ⟨(pyMax DmCouriers.courierLtB q qs).id⟩ := rfl
    have hrun2 : DmCouriers.couriersRun rows
        ⟨(q :: qs).foldl DmCouriers.upsertCourier st.dm_couriers,
         some (DmCouriers.CourierSettings.ofCourier (pyMax DmCouriers.courierLtB q qs))⟩
        = ⟨(q :: qs).foldl DmCouriers.upsertCourier st.dm_couriers,
           some (DmCouriers.CourierSettings.ofCourier (pyMax DmCouriers.courierLtB q qs))⟩ := by
      unfold DmCouriers.couriersRun DmCouriers.list_couriers
      rw [hset, hempty]
      rfl
    rw [hrun1]
    exact hrun2

/-! Claim C8: defaults of the checkpoint store. -/

/-- C8 counterexample: for the deliveries pipeline with no stored checkpoint
row, the settings model alone has no sentinel default for the timestamp
(building it from the empty blob fails validation), and the run prelude seeds
the watermark timestamp with the externally supplied `start_date` (here `7`),
not with the minimum sentinel `0` — so `get` does not yield a
minimum-sentinel watermark for every pipeline key. -/
theorem c8_counterexample :
    StgDeliveries.DeliverySettings.ofBlob
        (EtlSettings.get_setting [] "deliverysystem_deliveries_origin_to_stg_workflow").workflow_settings
      = none
  ∧ StgDeliveries.initSettings [] "deliverysystem_deliveries_origin_to_stg_workflow" 7
      = some ⟨7, 0⟩
  ∧ (7 : Nat) ≠ 0 := by
  exact ⟨rfl, rfl, by decide⟩

/-- C8 (amended): with no stored row `get_setting` returns a fresh setting
with an empty blob; parsing that blob yields the minimum sentinels for the
postgres-sourced pipelines (`datetime.min` timestamp and all-zero object id
for orders, `-1` for the couriers' integer id), while the deliveries settings
cannot be built from an empty blob at all — the run prelude injects the
caller's `start_date` as the first-run timestamp (the object id still
defaults to the all-zero sentinel). -/
theorem c8_default_watermarks :
    (∀ (table : List EtlSettings.EtlSetting) (k : String),
        table.find? (fun r => r.workflow_key == k) = none →
        EtlSettings.get_setting table k = ⟨0, k, []⟩)
  ∧ DmOrders.OrderSettings.ofBlob [] = ⟨0, 0⟩
  ∧ DmCouriers.CourierSettings.ofBlob [] = ⟨-1⟩
  ∧ StgDeliveries.DeliverySettings.ofBlob [] = none
  ∧ (∀ (table : List EtlSettings.EtlSetting) (k : String) (start_date : Nat),
        table.find? (fun r => r.workflow_key == k) = none →
        StgDeliveries.initSettings table k start_date = some ⟨start_date, 0⟩) := by
  refine ⟨?_, rfl, rfl, rfl, ?_⟩
  · intro table k hfind
    unfold EtlSettings.get_setting
    rw [hfind]
    rfl
  · intro table k start_date hfind
    unfold StgDeliveries.initSettings EtlSettings.get_setting
    rw [hfind]
    rfl

/-- C8 witness: the amended statement instantiated at an empty settings
table. -/
theorem c8_default_watermarks_witness :
    EtlSettings.get_setting [] "orders_stg_to_dds_workflow"
        = ⟨0, "orders_stg_to_dds_workflow", []⟩
  ∧ StgDeliveries.initSettings [] "wf" 9 = some ⟨9, 0⟩ :=
  ⟨c8_default_watermarks.1 [] "orders_stg_to_dds_workflow" rfl,
   c8_default_watermarks.2.2.2.2 [] "wf" 9 rfl⟩

/-! Claim C9: the settings blob round-trip. -/

/-- C9 counterexample: a watermark whose timestamp carries a non-zero
microsecond part does not survive serialize-then-deserialize — the
`"%Y-%m-%d %H:%M:%S"` rendering has no `%f`, so the microseconds are dropped
and the recovered value differs from the original. -/
theorem c9_counterexample :
    SettingsRoundTrip.roundTrip c9subsec ≠ c9subsec ∧
    SettingsRoundTrip.roundTrip c9subsec = ⟨⟨5, 0⟩, 9⟩ := by
  exact ⟨by decide, rfl⟩

/-- C9 (amended): serializing a settings watermark and deserializing it back
preserves the object id exactly and the timestamp only down to whole seconds
(microseconds are zeroed); the round-trip is the identity precisely on
watermarks whose timestamp has no sub-second part. -/
theorem c9_roundtrip_whole_seconds (w : SettingsRoundTrip.TsOidWatermark) :
    SettingsRoundTrip.roundTrip w
        = ⟨⟨w.last_loaded_ts.sec, 0⟩, w.last_loaded_oid⟩
      ∧ (w.last_loaded_ts.usec = 0 → SettingsRoundTrip.roundTrip w = w) := by
  constructor
  · rfl
  · intro h
    show (⟨⟨w.last_loaded_ts.sec, 0⟩, w.last_loaded_oid⟩ : SettingsRoundTrip.TsOidWatermark) = w
    rw [← h]

/-- C9 witness: a whole-second watermark round-trips unchanged. -/
theorem c9_roundtrip_whole_seconds_witness :
    SettingsRoundTrip.roundTrip ⟨⟨5, 0⟩, 9⟩ = ⟨⟨5, 0⟩, 9⟩ :=
  (c9_roundtrip_whole_seconds ⟨⟨5, 0⟩, 9⟩).2 rfl


/-! Claim C5: the slowly-changing (type-2) writer. -/

/-- C5 (code bug): the spec's algorithm — close the key's open row and insert
the new open row in the same statement, with identical payloads detected as a
no-op by the conflict constraint — is the clear intent of the statement, but
the `INSERT`'s `ON CONFLICT` check runs against the pre-statement table state
(the unreferenced data-modifying CTE is executed after the main statement).
At the failing input — a table holding the single open row
`⟨1, "r1", "A", 1, farFuture⟩` and a write of payload `"B"` at time `2` —
the insert conflicts with the still-open row and is skipped while the CTE
closes that row, so the write leaves the key with a closed row and no open
row; the immediately following write of `"B"` at time `3` then re-modifies
the already-closed row's `active_to` (from `2` to `3`) before the new
version finally appears, contradicting both the claimed single-statement
close-plus-insert and the claim that closed rows are never modified. -/
theorem c5_scd_conflict_bug :
    DmRestaurants.insert_restaurant [⟨1, "r1", "A", 1, DmRestaurants.farFuture⟩] "r1" "B" 2
        = [⟨1, "r1", "A", 1, 2⟩]
  ∧ ((DmRestaurants.insert_restaurant [⟨1, "r1", "A", 1, DmRestaurants.farFuture⟩]
        "r1" "B" 2).any (fun r => r.active_to == DmRestaurants.farFuture)) = false
  ∧ DmRestaurants.insert_restaurant [⟨1, "r1", "A", 1, 2⟩] "r1" "B" 3
        = [⟨1, "r1", "A", 1, 3⟩, ⟨2, "r1", "B", 3, DmRestaurants.farFuture⟩] := by
  decide

/-! Claim C7, settlement-report part: drain-loop lemmas. -/

theorem take_append_drop_length {α : Type} (D : List α) (n : Nat) :
    D = D.take n ++ D.drop (D.take n).length := by
  rw [List.length_take]
  rcases Nat.le_total D.length n with h | h
  · rw [Nat.min_eq_right h, List.drop_length, List.take_of_length_le h, List.append_nil]
  · rw [Nat.min_eq_left h, List.take_append_drop]

theorem list_reports_eq (rows : List CdmReports.RestaurantReportObj)
    (s : CdmReports.RestaurantReportSettings) (offset limit : Nat) :
    CdmReports.list_reports rows s offset limit
      = ((CdmReports.sortedSource rows s).drop offset).take limit := rfl

theorem sorted_drop_split (rows : List CdmReports.RestaurantReportObj)
    (s : CdmReports.RestaurantReportSettings) (offset : Nat) :
    (CdmReports.sortedSource rows s).drop offset
      = CdmReports.list_reports rows s offset CdmReports.BATCH_LIMIT
        ++ (CdmReports.sortedSource rows s).drop
            (offset + (CdmReports.list_reports rows s offset CdmReports.BATCH_LIMIT).length) := by
  rw [list_reports_eq]
  rw [show (CdmReports.sortedSource rows s).drop
      (offset + (((CdmReports.sortedSource rows s).drop offset).take
        CdmReports.BATCH_LIMIT).length)
      = ((CdmReports.sortedSource rows s).drop offset).drop
          ((((CdmReports.sortedSource rows s).drop offset).take
            CdmReports.BATCH_LIMIT)).length from by rw [List.drop_drop, Nat.add_comm]]
  exact take_append_drop_length _ _

theorem reports_page_nil (rows : List CdmReports.RestaurantReportObj)
    (s : CdmReports.RestaurantReportSettings) (offset : Nat)
    (h : CdmReports.list_reports rows s offset CdmReports.BATCH_LIMIT = []) :
    (CdmReports.sortedSource rows s).drop offset = [] := by
  have hl := congrArg List.length h
  rw [list_reports_eq, List.length_take] at hl
  simp only [List.length_nil] at hl
  rcases Nat.min_eq_zero_iff.mp hl with h' | h'
  · exact absurd h' (by decide)
  · exact List.eq_nil_of_length_eq_zero h'

theorem reportsDrain_fst (rows : List CdmReports.RestaurantReportObj)
    (s : CdmReports.RestaurantReportSettings) :
    ∀ (fuel offset : Nat) (table : List CdmReports.ReportRow)
      (last : Option CdmReports.RestaurantReportObj),
      (CdmReports.sortedSource rows s).length - offset ≤ fuel →
      (CdmReports.reportsDrain rows s offset table last).1
        = ((CdmReports.sortedSource rows s).drop offset).foldl
            CdmReports.insert_report table := by
  intro fuel
  induction fuel with
  | zero =>
    intro offset table last hoff
    have hnil : (CdmReports.sortedSource rows s).drop offset = [] :=
      List.drop_eq_nil_of_le (by omega)
    have hq : (CdmReports.list_reports rows s offset CdmReports.BATCH_LIMIT).isEmpty = true := by
      rw [list_reports_eq, hnil]
      rfl
    rw [CdmReports.reportsDrain, dif_pos hq, hnil]
    rfl
  | succ n ih =>
    intro offset table last hoff
    by_cases hq : (CdmReports.list_reports rows s offset CdmReports.BATCH_LIMIT).isEmpty = true
    · have h0 : CdmReports.list_reports rows s offset CdmReports.BATCH_LIMIT = [] := by
        simpa using hq
      rw [CdmReports.reportsDrain, dif_pos hq, reports_page_nil rows s offset h0]
      rfl
    · have h0 : CdmReports.list_reports rows s offset CdmReports.BATCH_LIMIT ≠ [] := by
        simpa using hq
      have hlen : 0 < (CdmReports.list_reports rows s offset CdmReports.BATCH_LIMIT).length :=
        List.length_pos.mpr h0
      have hofflt : offset < (CdmReports.sortedSource rows s).length := by
        by_contra hle
        push_neg at hle
        apply h0
        rw [list_reports_eq, List.drop_eq_nil_of_le hle]
        rfl
      rw [CdmReports.reportsDrain, dif_neg hq]
      rw [ih (offset + (CdmReports.list_reports rows s offset CdmReports.BATCH_LIMIT).length)
        _ _ (by omega)]
      rw [sorted_drop_split rows s offset, List.foldl_append]

theorem reportsDrain_snd (rows : List CdmReports.RestaurantReportObj)
    (s : CdmReports.RestaurantReportSettings) :
    ∀ (fuel offset : Nat) (table : List CdmReports.ReportRow)
      (last : Option CdmReports.RestaurantReportObj),
      (CdmReports.sortedSource rows s).length - offset ≤ fuel →
      (((CdmReports.sortedSource rows s).drop offset) = [] →
          (CdmReports.reportsDrain rows s offset table last).2 = last)
      ∧ (((CdmReports.sortedSource rows s).drop offset) ≠ [] →
          ∃ r, (CdmReports.reportsDrain rows s offset table last).2 = some r
            ∧ r ∈ (CdmReports.sortedSource rows s).drop offset
            ∧ ∀ x ∈ (CdmReports.sortedSource rows s).drop offset, x.date ≤ r.date) := by
  intro fuel
  induction fuel with
  | zero =>
    intro offset table last hoff
    have hnil : (CdmReports.sortedSource rows s).drop offset = [] :=
      List.drop_eq_nil_of_le (by omega)
    have hq : (CdmReports.list_reports rows s offset CdmReports.BATCH_LIMIT).isEmpty = true := by
      rw [list_reports_eq, hnil]
      rfl
    exact ⟨fun _ => by rw [CdmReports.reportsDrain, dif_pos hq], fun hne => absurd hnil hne⟩
  | succ n ih =>
    intro offset table last hoff
    by_cases hq : (CdmReports.list_reports rows s offset CdmReports.BATCH_LIMIT).isEmpty = true
    · have h0 : CdmReports.list_reports rows s offset CdmReports.BATCH_LIMIT = [] := by
        simpa using hq
      exact ⟨fun _ => by rw [CdmReports.reportsDrain, dif_pos hq],
        fun hne => absurd (reports_page_nil rows s offset h0) hne⟩
    · have h0 : CdmReports.list_reports rows s offset CdmReports.BATCH_LIMIT ≠ [] := by
        simpa using hq
      have hlen : 0 < (CdmReports.list_reports rows s offset CdmReports.BATCH_LIMIT).length :=
        List.length_pos.mpr h0
      have hofflt : offset < (CdmReports.sortedSource rows s).length := by
        by_contra hle
        push_neg at hle
        apply h0
        rw [list_reports_eq, List.drop_eq_nil_of_le hle]
        rfl
      have hsplit := sorted_drop_split rows s offset
      have hDne : (CdmReports.sortedSource rows s).drop offset ≠ [] := by
        rw [hsplit]
        intro hcontra
        exact h0 (List.append_eq_nil.mp hcontra).1
      refine ⟨fun h => absurd h hDne, fun _ => ?_⟩
      cases hqq : CdmReports.list_reports rows s offset CdmReports.BATCH_LIMIT with
      | nil => exact absurd hqq h0
      | cons qh qt =>
        rw [CdmReports.reportsDrain, dif_neg hq]
        have ihh := ih
          (offset + (CdmReports.list_reports rows s offset CdmReports.BATCH_LIMIT).length)
          ((CdmReports.list_reports rows s offset CdmReports.BATCH_LIMIT).foldl
            CdmReports.insert_report table)
          (pyMaxOpt CdmReports.reportLtB
            (CdmReports.list_reports rows s offset CdmReports.BATCH_LIMIT))
          (by omega)
        by_cases hnext : (CdmReports.sortedSource rows s).drop
            (offset + (CdmReports.list_reports rows s offset CdmReports.BATCH_LIMIT).length)
            = []
        · have hval := ihh.1 hnext
          refine ⟨pyMax CdmReports.reportLtB qh qt, ?_, ?_, ?_⟩
          · rw [hval, hqq]
            rfl
          · rw [hsplit, hqq]
            exact List.mem_append_left _ (pyMax_mem _ _ _)
          · intro x hx
            rw [hsplit, hnext, List.append_nil, hqq] at hx
            exact pyMax_key_ge CdmReports.rkey qt qh x hx
        · obtain ⟨r', hval, hmem, hmax⟩ := ihh.2 hnext
          refine ⟨r', hval, ?_, ?_⟩
          · rw [hsplit]
            exact List.mem_append_right _ hmem
          · intro x hx
            rw [hsplit] at hx
            rcases List.mem_append.mp hx with hx1 | hx2
            · have hsorted : List.Pairwise CdmReports.reportLe
                  ((CdmReports.sortedSource rows s).drop offset) :=
                List.Pairwise.sublist (List.drop_sublist _ _)
                  (List.sorted_insertionSort _ _)
              rw [hsplit] at hsorted
              exact (List.pairwise_append.mp hsorted).2.2 x hx1 r' hmem
            · exact hmax x hx2

theorem updRow_updRow_eq (x : CdmReports.ReportRow) (r : CdmReports.RestaurantReportObj) :
    CdmReports.updRow (CdmReports.updRow x r) r = CdmReports.updRow x r := rfl

theorem keyMatch_updRow_eq (x : CdmReports.ReportRow)
    (r r' : CdmReports.RestaurantReportObj) :
    CdmReports.keyMatchB r' (CdmReports.updRow x r) = CdmReports.keyMatchB r' x := rfl

theorem updRow_newRow_eq (r : CdmReports.RestaurantReportObj) :
    CdmReports.updRow (CdmReports.newRow r) r = CdmReports.newRow r := rfl

theorem keyMatch_newRow_self (r : CdmReports.RestaurantReportObj) :
    CdmReports.keyMatchB r (CdmReports.newRow r) = true := by
  simp [CdmReports.keyMatchB, CdmReports.newRow]

theorem keyOf_eq_of_both {r r' : CdmReports.RestaurantReportObj} {x : CdmReports.ReportRow}
    (h1 : CdmReports.keyMatchB r x = true) (h2 : CdmReports.keyMatchB r' x = true) :
    CdmReports.keyOf r = CdmReports.keyOf r' := by
  simp only [CdmReports.keyMatchB, Bool.and_eq_true, beq_iff_eq] at h1 h2
  simp only [CdmReports.keyOf, Prod.mk.injEq]
  exact ⟨by rw [← h1.1, h2.1], by rw [← h1.2, h2.2]⟩

theorem keyMatch_newRow_ne {r r' : CdmReports.RestaurantReportObj}
    (h : CdmReports.keyOf r' ≠ CdmReports.keyOf r) :
    CdmReports.keyMatchB r (CdmReports.newRow r') = false := by
  rcases Bool.eq_false_or_eq_true (CdmReports.keyMatchB r (CdmReports.newRow r')) with hb | hb
  · exact absurd (keyOf_eq_of_both (keyMatch_newRow_self r') hb) h
  · exact hb

theorem insert_report_stable (T : List CdmReports.ReportRow)
    (r : CdmReports.RestaurantReportObj) :
    CdmReports.rStable (CdmReports.insert_report T r) r := by
  unfold CdmReports.insert_report
  by_cases h : T.any (CdmReports.keyMatchB r) = true
  · rw [if_pos h]
    refine ⟨?_, ?_⟩
    · rw [List.any_eq_true]
      obtain ⟨x, hx, hm⟩ := List.any_eq_true.mp h
      refine ⟨CdmReports.updRow x r, List.mem_map.mpr ⟨x, hx, ?_⟩, ?_⟩
      · rw [if_pos hm]
      · rw [keyMatch_updRow_eq]
        exact hm
    · intro y hy hmy
      obtain ⟨x, hx, hxy⟩ := List.mem_map.mp hy
      by_cases hmx : CdmReports.keyMatchB r x = true
      · rw [if_pos hmx] at hxy
        rw [← hxy]
        exact updRow_updRow_eq x r
      · rw [if_neg hmx] at hxy
        rw [← hxy] at hmy
        exact absurd hmy hmx
  · rw [if_neg h]
    refine ⟨?_, ?_⟩
    · rw [List.any_eq_true]
      exact ⟨CdmReports.newRow r, List.mem_append_right _ (List.mem_singleton_self _),
        keyMatch_newRow_self r⟩
    · intro y hy hmy
      rcases List.mem_append.mp hy with h1 | h2
      · exact absurd (List.any_eq_true.mpr ⟨y, h1, hmy⟩) h
      · have hyn : y = CdmReports.newRow r := by simpa using h2
        rw [hyn]
        exact updRow_newRow_eq r

theorem insert_report_pres_stable (T : List CdmReports.ReportRow)
    (r r' : CdmReports.RestaurantReportObj)
    (hk : CdmReports.keyOf r' ≠ CdmReports.keyOf r) (h : CdmReports.rStable T r) :
    CdmReports.rStable (CdmReports.insert_report T r') r := by
  unfold CdmReports.insert_report
  by_cases ha : T.any (CdmReports.keyMatchB r') = true
  · rw [if_pos ha]
    refine ⟨?_, ?_⟩
    · obtain ⟨x, hx, hm⟩ := List.any_eq_true.mp h.1
      have hmx' : CdmReports.keyMatchB r' x = false := by
        rcases Bool.eq_false_or_eq_true (CdmReports.keyMatchB r' x) with hb | hb
        · exact absurd (keyOf_eq_of_both hb hm) hk
        · exact hb
      rw [List.any_eq_true]
      refine ⟨x, List.mem_map.mpr ⟨x, hx, ?_⟩, hm⟩
      simp [hmx']
    · intro y hy hmy
      obtain ⟨x, hx, hxy⟩ := List.mem_map.mp hy
      by_cases hmx : CdmReports.keyMatchB r' x = true
      · rw [if_pos hmx] at hxy
        rw [← hxy] at hmy
        rw [keyMatch_updRow_eq] at hmy
        exact absurd (keyOf_eq_of_both hmx hmy) hk
      · rw [if_neg hmx] at hxy
        subst hxy
        exact h.2 x hx hmy
  · rw [if_neg ha]
    refine ⟨?_, ?_⟩
    · rw [List.any_eq_true]
      obtain ⟨x, hx, hm⟩ := List.any_eq_true.mp h.1
      exact ⟨x, List.mem_append_left _ hx, hm⟩
    · intro y hy hmy
      rcases List.mem_append.mp hy with h1 | h2
      · exact h.2 y h1 hmy
      · have hyn : y = CdmReports.newRow r' := by simpa using h2
        rw [hyn, keyMatch_newRow_ne hk] at hmy
        exact absurd hmy Bool.false_ne_true

theorem insert_report_of_stable (T : List CdmReports.ReportRow)
    (r : CdmReports.RestaurantReportObj) (h : CdmReports.rStable T r) :
    CdmReports.insert_report T r = T := by
  unfold CdmReports.insert_report
  rw [if_pos h.1]
  have hpt : ∀ x ∈ T,
      (if CdmReports.keyMatchB r x = true then CdmReports.updRow x r else x) = x := by
    intro x hx
    by_cases hm : CdmReports.keyMatchB r x = true
    · rw [if_pos hm]
      exact h.2 x hx hm
    · rw [if_neg hm]
  have h2 : T.map (fun x => if CdmReports.keyMatchB r x = true
      then CdmReports.updRow x r else x) = T.map id :=
    List.map_congr_left (fun x hx => (hpt x hx).trans rfl)
  rw [h2, List.map_id]

theorem foldl_insert_pres (l : List CdmReports.RestaurantReportObj) :
    ∀ (T : List CdmReports.ReportRow) (r : CdmReports.RestaurantReportObj),
      (∀ y ∈ l, CdmReports.keyOf y ≠ CdmReports.keyOf r) → CdmReports.rStable T r →
      CdmReports.rStable (l.foldl CdmReports.insert_report T) r := by
  induction l with
  | nil => intro T r _ h; exact h
  | cons y ys ih =>
    intro T r hks h
    exact ih _ r (fun z hz => hks z (List.mem_cons_of_mem _ hz))
      (insert_report_pres_stable T r y (hks y (List.mem_cons_self _ _)) h)

theorem foldl_insert_stable (l : List CdmReports.RestaurantReportObj) :
    ∀ (T : List CdmReports.ReportRow) (r : CdmReports.RestaurantReportObj), r ∈ l →
      List.Pairwise (fun a b => CdmReports.keyOf a ≠ CdmReports.keyOf b) l →
      CdmReports.rStable (l.foldl CdmReports.insert_report T) r := by
  induction l with
  | nil => intro T r hr _; cases hr
  | cons y ys ih =>
    intro T r hr hpw
    rcases List.mem_cons.mp hr with h | h
    · subst h
      refine foldl_insert_pres ys _ r ?_ (insert_report_stable T r)
      intro z hz
      have := (List.pairwise_cons.mp hpw).1 z hz
      exact fun he => this he.symm
    · exact ih _ r h (List.pairwise_cons.mp hpw).2

theorem foldl_insert_replay (l : List CdmReports.RestaurantReportObj) :
    ∀ T : List CdmReports.ReportRow,
      (∀ r ∈ l, CdmReports.rStable T r) → l.foldl CdmReports.insert_report T = T := by
  induction l with
  | nil => intro T _; rfl
  | cons x xs ih =>
    intro T h
    rw [List.foldl_cons, insert_report_of_stable T x (h x (List.mem_cons_self _ _))]
    exact ih T (fun r hr => h r (List.mem_cons_of_mem _ hr))

theorem mem_sortedSource {rows : List CdmReports.RestaurantReportObj}
    {s : CdmReports.RestaurantReportSettings} {x : CdmReports.RestaurantReportObj} :
    x ∈ CdmReports.sortedSource rows s ↔ x ∈ rows.filter (CdmReports.reportsWhere s) :=
  List.mem_insertionSort CdmReports.reportLe

theorem sortedSource_keys (rows : List CdmReports.RestaurantReportObj)
    (s : CdmReports.RestaurantReportSettings)
    (hkeys : List.Pairwise (fun a b => CdmReports.keyOf a ≠ CdmReports.keyOf b) rows) :
    List.Pairwise (fun a b => CdmReports.keyOf a ≠ CdmReports.keyOf b)
      (CdmReports.sortedSource rows s) := by
  have h1 : List.Pairwise (fun a b => CdmReports.keyOf a ≠ CdmReports.keyOf b)
      (rows.filter (CdmReports.reportsWhere s)) :=
    List.Pairwise.sublist (List.filter_sublist _) hkeys
  have hperm : (CdmReports.sortedSource rows s).Perm
      (rows.filter (CdmReports.reportsWhere s)) :=
    List.perm_insertionSort _ _
  exact (List.Perm.pairwise_iff (fun hab heq => hab heq.symm) hperm).mpr h1

theorem settlement_idempotent (rows : List CdmReports.RestaurantReportObj)
    (st : CdmReports.CdmState)
    (hkeys : List.Pairwise (fun a b => CdmReports.keyOf a ≠ CdmReports.keyOf b) rows) :
    CdmReports.reportsRun rows (CdmReports.reportsRun rows st)
      = CdmReports.reportsRun rows st := by
  by_cases hF0 : CdmReports.sortedSource rows (CdmReports.settingsOf st) = []
  · have hq : (CdmReports.list_reports rows (CdmReports.settingsOf st) 0
        CdmReports.BATCH_LIMIT).isEmpty = true := by
      rw [list_reports_eq, List.drop_zero, hF0]
      rfl
    have hd1 : CdmReports.reportsDrain rows (CdmReports.settingsOf st) 0
        st.dm_settlement_report none = (st.dm_settlement_report, none) := by
      rw [CdmReports.reportsDrain, dif_pos hq]
    have hrun : CdmReports.reportsRun rows st = st := by
      unfold CdmReports.reportsRun
      rw [hd1]
    rw [hrun]
    exact hrun
  · obtain ⟨r1, hval1, hmem1, hmax1⟩ :=
      ((reportsDrain_snd rows (CdmReports.settingsOf st))
        (CdmReports.sortedSource rows (CdmReports.settingsOf st)).length 0
        st.dm_settlement_report none (by omega)).2 (by rw [List.drop_zero]; exact hF0)
    rw [List.drop_zero] at hmem1 hmax1
    have htab1 := (reportsDrain_fst rows (CdmReports.settingsOf st))
      (CdmReports.sortedSource rows (CdmReports.settingsOf st)).length 0
      st.dm_settlement_report none (by omega)
    rw [List.drop_zero] at htab1
    have hd1 : CdmReports.reportsDrain rows (CdmReports.settingsOf st) 0
        st.dm_settlement_report none
        = ((CdmReports.sortedSource rows (CdmReports.settingsOf st)).foldl
            CdmReports.insert_report st.dm_settlement_report, some r1) := by
      rw [show CdmReports.reportsDrain rows (CdmReports.settingsOf st) 0
          st.dm_settlement_report none
          = ((CdmReports.reportsDrain rows (CdmReports.settingsOf st) 0
              st.dm_settlement_report none).1,
             (CdmReports.reportsDrain rows (CdmReports.settingsOf st) 0
              st.dm_settlement_report none).2) from rfl]
      rw [htab1, hval1]
    have hst1 : CdmReports.reportsRun rows st
        = ⟨(CdmReports.sortedSource rows (CdmReports.settingsOf st)).foldl
            CdmReports.insert_report st.dm_settlement_report, some ⟨r1.date⟩⟩ := by
      unfold CdmReports.reportsRun
      rw [hd1]
      rfl
    have hr1filter : r1 ∈ rows.filter (CdmReports.reportsWhere (CdmReports.settingsOf st)) :=
      mem_sortedSource.mp hmem1
    have hr1rows : r1 ∈ rows := (List.mem_filter.mp hr1filter).1
    have hr1w : (CdmReports.settingsOf st).last_loaded_date ≤ r1.date := by
      have := List.of_mem_filter hr1filter
      simpa [CdmReports.reportsWhere] using this
    have hsub : ∀ x ∈ CdmReports.sortedSource rows ⟨r1.date⟩,
        x ∈ CdmReports.sortedSource rows (CdmReports.settingsOf st) ∧ x.date = r1.date := by
      intro x hx
      have hxf := mem_sortedSource.mp hx
      have hxrows : x ∈ rows := (List.mem_filter.mp hxf).1
      have hxw : r1.date ≤ x.date := by
        have := List.of_mem_filter hxf
        simpa [CdmReports.reportsWhere] using this
      have hxF0 : x ∈ CdmReports.sortedSource rows (CdmReports.settingsOf st) := by
        apply mem_sortedSource.mpr
        refine List.mem_filter.mpr ⟨hxrows, ?_⟩
        simp only [CdmReports.reportsWhere, decide_eq_true_eq]
        omega
      exact ⟨hxF0, le_antisymm (hmax1 x hxF0) hxw⟩
    have hr1F1 : r1 ∈ CdmReports.sortedSource rows ⟨r1.date⟩ := by
      apply mem_sortedSource.mpr
      refine List.mem_filter.mpr ⟨hr1rows, ?_⟩
      simp [CdmReports.reportsWhere]
    have hF1ne : CdmReports.sortedSource rows ⟨r1.date⟩ ≠ [] := List.ne_nil_of_mem hr1F1
    obtain ⟨r2, hval2, hmem2, hmax2⟩ :=
      ((reportsDrain_snd rows ⟨r1.date⟩)
        (CdmReports.sortedSource rows ⟨r1.date⟩).length 0
        ((CdmReports.sortedSource rows (CdmReports.settingsOf st)).foldl
          CdmReports.insert_report st.dm_settlement_report) none (by omega)).2
        (by rw [List.drop_zero]; exact hF1ne)
    rw [List.drop_zero] at hmem2
    have htab2 := (reportsDrain_fst rows ⟨r1.date⟩)
      (CdmReports.sortedSource rows ⟨r1.date⟩).length 0
      ((CdmReports.sortedSource rows (CdmReports.settingsOf st)).foldl
        CdmReports.insert_report st.dm_settlement_report) none (by omega)
    rw [List.drop_zero] at htab2
    have hT2 : (CdmReports.sortedSource rows ⟨r1.date⟩).foldl CdmReports.insert_report
        ((CdmReports.sortedSource rows (CdmReports.settingsOf st)).foldl
          CdmReports.insert_report st.dm_settlement_report)
        = (CdmReports.sortedSource rows (CdmReports.settingsOf st)).foldl
            CdmReports.insert_report st.dm_settlement_report := by
      apply foldl_insert_replay
      intro r hr
      exact foldl_insert_stable _ st.dm_settlement_report r (hsub r hr).1
        (sortedSource_keys rows (CdmReports.settingsOf st) hkeys)
    have hd2 : CdmReports.reportsDrain rows ⟨r1.date⟩ 0
        ((CdmReports.sortedSource rows (CdmReports.settingsOf st)).foldl
          CdmReports.insert_report st.dm_settlement_report) none
        = ((CdmReports.sortedSource rows (CdmReports.settingsOf st)).foldl
            CdmReports.insert_report st.dm_settlement_report, some r2) := by
      rw [show CdmReports.reportsDrain rows ⟨r1.date⟩ 0
          ((CdmReports.sortedSource rows (CdmReports.settingsOf st)).foldl
            CdmReports.insert_report st.dm_settlement_report) none
          = ((CdmReports.reportsDrain rows ⟨r1.date⟩ 0
              ((CdmReports.sortedSource rows (CdmReports.settingsOf st)).foldl
                CdmReports.insert_report st.dm_settlement_report) none).1,
             (CdmReports.reportsDrain rows ⟨r1.date⟩ 0
              ((CdmReports.sortedSource rows (CdmReports.settingsOf st)).foldl
                CdmReports.insert_report st.dm_settlement_report) none).2) from rfl]
      rw [htab2, hT2, hval2]
    have hr2date : r2.date = r1.date := (hsub r2 hmem2).2
    rw [hst1]
    unfold CdmReports.reportsRun
    rw [show CdmReports.settingsOf ⟨(CdmReports.sortedSource rows
        (CdmReports.settingsOf st)).foldl CdmReports.insert_report st.dm_settlement_report,
        some ⟨r1.date⟩⟩ = (⟨r1.date⟩ : CdmReports.RestaurantReportSettings) from rfl]
    rw [hd2]
    have hset2 : CdmReports.RestaurantReportSettings.ofReport r2
        = (⟨r1.date⟩ : CdmReports.RestaurantReportSettings) := by
      show (⟨r2.date⟩ : CdmReports.RestaurantReportSettings) = ⟨r1.date⟩
      rw [hr2date]
    show (⟨(CdmReports.sortedSource rows (CdmReports.settingsOf st)).foldl
        CdmReports.insert_report st.dm_settlement_report,
        some (CdmReports.RestaurantReportSettings.ofReport r2)⟩ : CdmReports.CdmState) = _
    rw [hset2]

/-- C7 (amended): two-run idempotence of the single-batch pipelines.
For the couriers pipeline, if the first run drains the source — the records
past the current watermark fit into the batch limit — then a second run with
no new source records reads an empty batch and leaves the destination table
and the stored watermark exactly as the first run left them (a run that still
finds a backlog instead continues draining it). For the settlement-report
pipeline, whose loop pages through the whole backlog in one run, a second run
over the same source rows — aggregate rows with pairwise-distinct
`(settlement_date, restaurant_id)` keys, as the `GROUP BY` produces — re-reads
the rows at the final watermark date, and its `ON CONFLICT DO UPDATE` upserts
and recomputed watermark reproduce the first run's state exactly. -/
theorem c7_two_run_idempotence :
    (∀ (rows : List DmCouriers.CourierObj) (st : DmCouriers.CouriersState),
      (rows.filter (DmCouriers.couriersWhere (DmCouriers.settingsOf st))).length
          ≤ DmCouriers.BATCH_LIMIT →
      DmCouriers.couriersRun rows (DmCouriers.couriersRun rows st)
        = DmCouriers.couriersRun rows st)
  ∧ (∀ (rows : List CdmReports.RestaurantReportObj) (st : CdmReports.CdmState),
      List.Pairwise (fun a b => CdmReports.keyOf a ≠ CdmReports.keyOf b) rows →
      CdmReports.reportsRun rows (CdmReports.reportsRun rows st)
        = CdmReports.reportsRun rows st) :=
  ⟨fun rows st h => couriers_idempotent_of_drained rows st h,
   fun rows st h => settlement_idempotent rows st h⟩

/-- C7 witness: a one-courier source within the batch limit, and a one-report
source with a trivially key-distinct row set, are both two-run idempotent. -/
theorem c7_two_run_idempotence_witness :
    DmCouriers.couriersRun [⟨1, "a", "A"⟩] (DmCouriers.couriersRun [⟨1, "a", "A"⟩] ⟨[], none⟩)
        = DmCouriers.couriersRun [⟨1, "a", "A"⟩] ⟨[], none⟩
  ∧ CdmReports.reportsRun [c4rpt] (CdmReports.reportsRun [c4rpt] ⟨[], none⟩)
        = CdmReports.reportsRun [c4rpt] ⟨[], none⟩ :=
  ⟨c7_two_run_idempotence.1 [⟨1, "a", "A"⟩] ⟨[], none⟩ (by decide),
   c7_two_run_idempotence.2 [c4rpt] ⟨[], none⟩ (by decide)⟩
